import Mathlib

/-!
# Frame pool, page table and VM pool of the MP4 kernel

A shallow embedding of `cont_frame_pool.C` (the contiguous frame allocator),
`page_table.C` (the two-level page table and its fault handler) and `vm_pool.C`
(the pools of virtual-memory regions).

The kernel targets 32-bit x86, so `unsigned int` and `unsigned long` are both
32-bit words: arithmetic on them is taken modulo `2^32`.  The bitmap is an
`unsigned char*` into raw memory, modelled as a total function from byte
offsets (relative to the `bitmap` pointer) to byte values; a load reads the
value modulo 256.  Loops that the source does not bound are run on fuel and
return `none` when the fuel is exhausted.
-/

namespace MP4

/-- Number of values of a 32-bit machine word (`unsigned int`, `unsigned long`). -/
def WORD : Nat := 2 ^ 32

/-- Modelled from the spec: `FRAME_SIZE` is declared in `cont_frame_pool.H`, which is
not among the sources; the spec fixes the frame size at 4096 bytes. -/
def FRAME_SIZE : Nat := 4096

/-- The three frame states of `ContFramePool::FrameState`. -/
inductive FrameState where
  | Free
  | Used
  | HoS
  deriving DecidableEq, Repr

/-- Raw memory seen through the `unsigned char* bitmap` pointer. -/
abbrev Bitmap := Nat → Nat

/-- The fields of a `ContFramePool` object: `bitmap_addr` is the value of the
`bitmap` pointer and `bitmap` the memory it points to; the `next` link is kept
by the list that holds the pools. -/
structure ContFramePool where
  base_frame_no : Nat
  nframes : Nat
  nFreeFrames : Nat
  info_frame_no : Nat
  bitmap_addr : Nat
  bitmap : Bitmap

/-- Method `ContFramePool::get_state`: decode the two bits of frame `_frame_no`. -/
def get_state (bitmap : Bitmap) (_frame_no : Nat) : FrameState :=
  let bitmap_index := _frame_no / 4
  let mask := (0x3 <<< (2 * (_frame_no % 4))) % 256
  if ((bitmap bitmap_index % 256) &&& mask) >>> (2 * (_frame_no % 4)) = 0 then
    FrameState.Free
  else if ((bitmap bitmap_index % 256) &&& mask) >>> (2 * (_frame_no % 4)) = 0x1 then
    FrameState.Used
  else
    FrameState.HoS

/-- The byte stored by `ContFramePool::set_state` into `bitmap[_frame_no / 4]`,
given the byte `b` found there. -/
def set_state_byte (b : Nat) (_frame_no : Nat) (_state : FrameState) : Nat :=
  let mask := 0xFF
  let mask := mask &&& (0xFF ^^^ ((1 <<< (2 * (_frame_no % 4))) % 256))
  let mask := mask &&& (0xFF ^^^ ((1 <<< (2 * (_frame_no % 4) + 1)) % 256))
  let b := (b % 256) &&& mask
  match _state with
  | FrameState.Free => b
  | FrameState.Used => b ||| ((0x1 <<< (2 * (_frame_no % 4))) % 256)
  | FrameState.HoS => b ||| ((0x1 <<< (2 * (_frame_no % 4) + 1)) % 256)

/-- Method `ContFramePool::set_state`: rewrite the two bits of frame `_frame_no`. -/
def set_state (bitmap : Bitmap) (_frame_no : Nat) (_state : FrameState) : Bitmap :=
  fun i => if i = _frame_no / 4 then set_state_byte (bitmap (_frame_no / 4)) _frame_no _state
           else bitmap i

/-- The two-bit field number `k` of the byte `b`, as `get_state` extracts it. -/
def field_of (b k : Nat) : Nat := ((b % 256) &&& ((0x3 <<< (2 * k)) % 256)) >>> (2 * k)

/-- The state `get_state` reports for a two-bit field value. -/
def decode (v : Nat) : FrameState :=
  if v = 0 then FrameState.Free else if v = 0x1 then FrameState.Used else FrameState.HoS

/-- The loop `for(int fno = 0; fno < nframes; fno++) set_state(fno, Free)` of the
constructor; the first argument counts the iterations still allowed and the
caller passes `nframes`, which the loop never exceeds. -/
def init_loop (nframes : Nat) : Nat → Nat → Bitmap → Bitmap
  | 0, _, bitmap => bitmap
  | k + 1, fno, bitmap =>
      if fno < nframes then
        init_loop nframes k (fno + 1) (set_state bitmap fno FrameState.Free)
      else bitmap

/-- Constructor `ContFramePool::ContFramePool`, up to the registration in the pool list,
which is `register` below. `mem` is what the memory at the bitmap location holds
beforehand; `none` is the failed assertion. -/
def construct (_base_frame_no _n_frames _info_frame_no : Nat) (mem : Bitmap) :
    Option ContFramePool :=
  if _n_frames ≤ FRAME_SIZE * 8 then
    some
      { base_frame_no := _base_frame_no
        nframes := _n_frames
        nFreeFrames := _n_frames
        info_frame_no := _info_frame_no
        bitmap_addr :=
          if _info_frame_no = 0 then (_base_frame_no * FRAME_SIZE) % WORD
          else (_info_frame_no * FRAME_SIZE) % WORD
        bitmap := set_state (init_loop _n_frames _n_frames 0 mem) _info_frame_no FrameState.HoS }
  else none

/-- The `while(cons_free < _n_frames)` loop of `get_frames` on the state
`(cons_free, frame_no, head_frame)`; `none` when the fuel runs out before the
loop condition fails. The loop has no other exit. -/
def get_frames_scan (bitmap : Bitmap) (_n_frames : Nat) :
    Nat → Nat → Nat → Nat → Option (Nat × Nat × Nat)
  | 0, cons_free, frame_no, head_frame =>
      if cons_free < _n_frames then none else some (cons_free, frame_no, head_frame)
  | fuel + 1, cons_free, frame_no, head_frame =>
      if cons_free < _n_frames then
        if get_state bitmap frame_no = FrameState.Free then
          get_frames_scan bitmap _n_frames fuel ((cons_free + 1) % WORD) ((frame_no + 1) % WORD)
            (if (cons_free + 1) % WORD = 1 then frame_no else head_frame)
        else
          get_frames_scan bitmap _n_frames fuel 0 ((frame_no + 1) % WORD) 0
      else some (cons_free, frame_no, head_frame)

/-- The marking loop shared by `get_frames` and `mark_inaccessible`:
`for(unsigned int i = first; i < bound; i++)` sets frame `first` to `HoS` and the
others to `Used`. The first argument counts the iterations still allowed; the
callers pass `bound - first`, which the loop never exceeds. -/
def mark_loop (first bound : Nat) : Nat → Nat → Bitmap → Bitmap
  | 0, _, bitmap => bitmap
  | k + 1, i, bitmap =>
      if i < bound then
        mark_loop first bound k ((i + 1) % WORD)
          (set_state bitmap i (if i = first then FrameState.HoS else FrameState.Used))
      else bitmap

/-- Method `ContFramePool::get_frames`: the returned frame number and the pool afterwards;
`none` when the scan does not end within `fuel` iterations. -/
def get_frames (p : ContFramePool) (_n_frames : Nat) (fuel : Nat) :
    Option (Nat × ContFramePool) :=
  match get_frames_scan p.bitmap _n_frames fuel 0 0 0 with
  | none => none
  | some (cons_free, _, head_frame) =>
      if cons_free < _n_frames then some (0, p)
      else
        some ((head_frame + p.base_frame_no) % WORD,
          { p with
            bitmap :=
              mark_loop head_frame ((head_frame + _n_frames) % WORD)
                ((head_frame + _n_frames) % WORD - head_frame) head_frame p.bitmap })

/-- Method `ContFramePool::mark_inaccessible`. -/
def mark_inaccessible (p : ContFramePool) (_base_frame_no _n_frames : Nat) : ContFramePool :=
  { p with
    bitmap :=
      mark_loop (_base_frame_no % WORD) ((_base_frame_no + _n_frames) % WORD)
        ((_base_frame_no + _n_frames) % WORD - _base_frame_no % WORD) (_base_frame_no % WORD)
        p.bitmap }

/-- The `do { set_state(curr_frame, Free); curr_frame++; } while(get_state(curr_frame) == Used)`
loop of `release_frames_in_pool`; `none` when the fuel runs out. -/
def release_loop : Nat → Nat → Bitmap → Option Bitmap
  | 0, _, _ => none
  | fuel + 1, curr_frame, bitmap =>
      if get_state (set_state bitmap curr_frame FrameState.Free) ((curr_frame + 1) % WORD)
          = FrameState.Used then
        release_loop fuel ((curr_frame + 1) % WORD) (set_state bitmap curr_frame FrameState.Free)
      else some (set_state bitmap curr_frame FrameState.Free)

/-- Method `ContFramePool::release_frames_in_pool`. -/
def release_frames_in_pool (p : ContFramePool) (_first_frame_no : Nat) (fuel : Nat) :
    Option ContFramePool :=
  (release_loop fuel (_first_frame_no % WORD) p.bitmap).map (fun bm => { p with bitmap := bm })

/-- The ownership test written in `release_frames`:
`base_frame_no <= f && base_frame_no + nframes >= f`. -/
def claims (temp : ContFramePool) (_first_frame_no : Nat) : Bool :=
  decide (temp.base_frame_no ≤ _first_frame_no) &&
    decide ((temp.base_frame_no + temp.nframes) % WORD ≥ _first_frame_no)

/-- Static method `ContFramePool::release_frames` on the list of pools reachable from
`head` through the `next` links; the list afterwards. -/
def release_frames : List ContFramePool → Nat → Nat → Option (List ContFramePool)
  | [], _, _ => some []
  | [temp], _first_frame_no, fuel =>
      if claims temp _first_frame_no then
        (release_frames_in_pool temp _first_frame_no fuel).map (fun t => [t])
      else some [temp]
  | temp :: next :: rest, _first_frame_no, fuel =>
      if claims temp _first_frame_no then
        (release_frames_in_pool temp _first_frame_no fuel).map (fun t => t :: next :: rest)
      else
        (release_frames (next :: rest) _first_frame_no fuel).map (fun l => temp :: l)

/-- Frames `i .. i + n - 1` of the bitmap are all `Free`. -/
def FreeRun (bitmap : Bitmap) (i n : Nat) : Prop :=
  ∀ k, k < n → get_state bitmap (i + k) = FrameState.Free

instance (bitmap : Bitmap) (i n : Nat) : Decidable (FreeRun bitmap i n) := by
  unfold FreeRun; infer_instance

/-- A pool object with the given range and bitmap memory (bitmap hosted in the
pool's own first frame). -/
def pool_of (base n : Nat) (bitmap : Bitmap) : ContFramePool :=
  { base_frame_no := base, nframes := n, nFreeFrames := n, info_frame_no := 0,
    bitmap_addr := (base * FRAME_SIZE) % WORD, bitmap := bitmap }

/-- Bitmap memory holding the given bytes at offsets 0, 1, ... and zero beyond. -/
def bytes (l : List Nat) : Bitmap := fun i => l.getD i 0

/-- Number of frames of the pool's `n` local indices whose state is not `Free`. -/
def non_free_count (bitmap : Bitmap) (n : Nat) : Nat :=
  ((List.range n).filter (fun j => decide (get_state bitmap j ≠ FrameState.Free))).length

/-- A call made on one pool. -/
inductive Call where
  | get_frames (_n_frames fuel : Nat)
  | release_frames_in_pool (_first_frame_no fuel : Nat)

/-- The pool after a sequence of calls, each run on the pool the previous one left;
`none` when a call runs out of its fuel. -/
def run_calls : ContFramePool → List Call → Option ContFramePool
  | p, [] => some p
  | p, Call.get_frames n fuel :: cs => (get_frames p n fuel).bind (fun r => run_calls r.2 cs)
  | p, Call.release_frames_in_pool f fuel :: cs =>
      (release_frames_in_pool p f fuel).bind (fun q => run_calls q cs)

/-- The pool `construct 0 4 0` builds on zeroed memory. -/
def fresh_pool4 : ContFramePool :=
  { base_frame_no := 0, nframes := 4, nFreeFrames := 4, info_frame_no := 0, bitmap_addr := 0,
    bitmap := set_state (init_loop 4 4 0 (bytes [])) 0 FrameState.HoS }

/-- An allocation of two frames followed by the release of the frame it returned. -/
def sample_calls : List Call := [Call.get_frames 2 4, Call.release_frames_in_pool 1 4]

/-- The pool `fresh_pool4` after `sample_calls`. -/
def pool4_after_calls : ContFramePool := (run_calls fresh_pool4 sample_calls).get rfl

/-- Every `Used` frame among the first `N` follows a frame that is not `Free`: the
allocated frames form runs that start with a `HoS` frame. -/
def RunsWellFormed (N : Nat) (bitmap : Bitmap) : Prop :=
  ∀ j, j < N → get_state bitmap j = FrameState.Used →
    0 < j ∧ get_state bitmap (j - 1) ≠ FrameState.Free

/-- Property `RunsWellFormed` except possibly at frame `curr`. -/
def RunsWellFormedExcept (N : Nat) (bitmap : Bitmap) (curr : Nat) : Prop :=
  ∀ j, j < N → get_state bitmap j = FrameState.Used → j ≠ curr →
    0 < j ∧ get_state bitmap (j - 1) ≠ FrameState.Free

/-- Method `ContFramePool::needed_info_frames`. -/
def needed_info_frames (_n_frames : Nat) : Nat :=
  (_n_frames / (4 * 4096) + (if _n_frames % (4096 * 4) > 0 then 1 else 0)) % WORD

/-! ## Page table and VM pool (`page_table.C`, `vm_pool.C`)

Physical memory is a function from the byte address of a 32-bit word to the word;
the page directory and the page tables are read and written through it, as the
source does through `unsigned long*` pointers (entry `i` of the table at address
`t` is the word at `t + 4 * i`). The region tables of a VM pool are the memory at
its `base_address`, seen as an array of `MemRegion`. The frame-pool bitmaps, the
region tables and the page-table memory are kept apart: they are taken to occupy
disjoint memory. -/

/-- Modelled from the spec: `PageTable::PAGE_SIZE` is declared in `page_table.H`,
which is not among the sources; the spec fixes pages at 4096 bytes, the value of
`Machine::PAGE_SIZE` in `machine.H`. -/
def PAGE_SIZE : Nat := 4096

/-- Modelled from the spec: `MemRegion` is declared in `vm_pool.H`, which is not among
the sources; a region is a (start address, length in bytes) pair of two 32-bit
words, so that a table of 256 regions fills half a page. -/
structure MemRegion where
  start : Nat
  length : Nat
  deriving DecidableEq, Repr

/-- Memory at a VM pool's `base_address`, as an array of `MemRegion`. -/
abbrev Regions := Nat → MemRegion

/-- The fields of a `VMPool` object. `regions` is the memory at `base_address`:
`allocated_regions[i]` is `regions i`, and `free_regions`, which starts
`PAGE_SIZE / 2` bytes (256 regions) further, has `free_regions[j] = regions (256 + j)`. -/
structure VMPool where
  base_address : Nat
  size : Nat
  regions : Regions

/-- The entry `allocated_regions[i]` of a pool. -/
def VMPool.allocated_regions (p : VMPool) (i : Nat) : MemRegion := p.regions i

/-- The entry `free_regions[j]` of a pool. -/
def VMPool.free_regions (p : VMPool) (j : Nat) : MemRegion := p.regions (256 + j)

/-- The assignment `r[i].start = v`. -/
def set_start (r : Regions) (i v : Nat) : Regions :=
  fun j => if j = i then { r j with start := v } else r j

/-- The assignment `r[i].length = v`. -/
def set_length (r : Regions) (i v : Nat) : Regions :=
  fun j => if j = i then { r j with length := v } else r j

/-- The fields of a `PageTable` object: the address of its directory and the list of
VM pools registered with it (from `head` along the `next` links), each pool in
its current state. -/
structure PageTable where
  page_directory : Nat
  head : List VMPool

/-- Method `PageTable::register_pool`: the pool becomes the head of the list. -/
def PageTable.register_pool (this : PageTable) (_pool : VMPool) : PageTable :=
  { this with head := _pool :: this.head }

/-- The loops `for(i = first; i < bound; i++) { r[off + i].start = 0; r[off + i].length = 0; }`
of the `VMPool` constructor; the first argument counts the iterations still
allowed and the caller passes `bound - first`. -/
def clear_regions (off bound : Nat) : Nat → Nat → Regions → Regions
  | 0, _, r => r
  | k + 1, i, r =>
      if i < bound then
        clear_regions off bound k (i + 1) (set_length (set_start r (off + i) 0) (off + i) 0)
      else r

/-- Constructor `VMPool::VMPool`: the pool built on the memory `mem` found at
`_base_address`, and the page table it registered with. The table's list keeps a
pointer to the pool, so it holds the pool as the constructor leaves it. -/
def VMPool.construct (_base_address _size : Nat) (mem : Regions) (_page_table : PageTable) :
    VMPool × PageTable :=
  let r := set_start mem 256 1
  let r := set_length r 256 ((_size / PAGE_SIZE + WORD - 1) % WORD)
  let r := clear_regions 0 256 256 0 r
  let r := clear_regions 256 256 255 1 r
  ({ base_address := _base_address, size := _size, regions := r },
    _page_table.register_pool { base_address := _base_address, size := _size, regions := r })

/-- The search `while(allocated_regions[i].start != 0) { i++; if(i > 255) fail; }` of
`allocate`, from index `i`: the first unused slot, or `none` for the failure exit.
The first argument counts the iterations still allowed; the caller passes 256,
and the failure exit is taken in the 256th at the latest. -/
def allocate_find (r : Regions) : Nat → Nat → Option Nat
  | 0, _ => none
  | k + 1, i =>
      if (r i).start ≠ 0 then
        if i + 1 > 255 then none else allocate_find r k (i + 1)
      else some i

/-- The byte count `numBytes` that `allocate` computes from `_size`. -/
def allocate_bytes (_size : Nat) : Nat :=
  ((_size / PAGE_SIZE + (if _size % PAGE_SIZE ≠ 0 then 1 else 0)) * PAGE_SIZE) % WORD

/-- Method `VMPool::allocate`: the address returned and the pool afterwards. -/
def VMPool.allocate (p : VMPool) (_size : Nat) : Nat × VMPool :=
  match allocate_find p.regions 256 0 with
  | none => (0, p)
  | some i =>
      let r := set_start p.regions i (p.regions 256).start
      let r := set_length r i (allocate_bytes _size)
      let r := set_start r 256 (((r 256).start + allocate_bytes _size) % WORD)
      let r := set_length r 256 (((r 256).length + WORD - allocate_bytes _size) % WORD)
      ((r i).start, { p with regions := r })

/-- The C++ expression `a < x < b` on unsigned words: `(a < x)` is 0 or 1, and that
value is compared with `b`. -/
def chained_lt (a x b : Nat) : Bool :=
  decide ((if a < x then 1 else 0) < b)

/-- Method `VMPool::is_legitimate`. -/
def VMPool.is_legitimate (p : VMPool) (_address : Nat) : Bool :=
  if chained_lt p.base_address _address ((p.base_address + PAGE_SIZE) % WORD) then true
  else
    (List.range 256).any (fun i =>
      chained_lt (p.regions i).start _address
        (((p.regions i).start + (p.regions i).length) % WORD))

/-- The two-sided range test the specification describes for `is_legitimate`. -/
def in_pool_ranges (p : VMPool) (a : Nat) : Prop :=
  (p.base_address ≤ a ∧ a < p.base_address + 4096) ∨
    ∃ i, i < 256 ∧ (p.regions i).start ≠ 0 ∧
      (p.regions i).start ≤ a ∧ a < (p.regions i).start + (p.regions i).length

/-- Physical memory: the 32-bit word stored at each byte address. -/
abbrev Mem := Nat → Nat

/-- The store `*addr = v` of one word. -/
def write (mem : Mem) (addr v : Nat) : Mem :=
  fun x => if x = addr then v else mem x

/-- The loop of the `PageTable` constructor that fills the first page table:
`for(i = 0; i < 1024; i++) { page_table[i] = address | 0x3; address = address + 4096; }`. -/
def fill_loop (page_table : Nat) : Nat → Nat → Nat → Mem → Mem
  | 0, _, _, mem => mem
  | k + 1, i, address, mem =>
      if i < 1024 then
        fill_loop page_table k (i + 1) ((address + 4096) % WORD)
          (write mem ((page_table + 4 * i) % WORD) (address ||| 0x3))
      else mem

/-- The loop `for(i = first; i < bound; i++) table[i] = v` over the words of a
directory or page table. -/
def store_loop (table bound v : Nat) : Nat → Nat → Mem → Mem
  | 0, _, mem => mem
  | k + 1, i, mem =>
      if i < bound then
        store_loop table bound v k (i + 1) (write mem ((table + 4 * i) % WORD) v)
      else mem

/-- Constructor `PageTable::PageTable`: the new table, the memory, and the kernel and
process pools afterwards; `none` when a `get_frames` does not return. -/
def PageTable.construct (mem : Mem) (kernel_mem_pool process_mem_pool : ContFramePool)
    (fuel : Nat) : Option (PageTable × Mem × ContFramePool × ContFramePool) :=
  match get_frames kernel_mem_pool 1 fuel with
  | none => none
  | some (frame_no, kernel_mem_pool) =>
    let page_directory := (frame_no * PAGE_SIZE) % WORD
    match get_frames process_mem_pool 1 fuel with
    | none => none
    | some (ptp_frame, process_mem_pool) =>
      let page_table := (ptp_frame * PAGE_SIZE) % WORD
      let mem := fill_loop page_table 1024 0 0 mem
      let mem := write mem page_directory page_table
      let mem := write mem page_directory (mem page_directory ||| 0x3)
      let mem := store_loop page_directory 1023 (0 ||| 0x2) 1022 1 mem
      let mem := write mem ((page_directory + 4 * 1023) % WORD) page_directory
      let mem := write mem ((page_directory + 4 * 1023) % WORD)
        (mem ((page_directory + 4 * 1023) % WORD) ||| 0x3)
      some ({ page_directory := page_directory, head := [] }, mem, kernel_mem_pool,
        process_mem_pool)

/-- Method `PageTable::PDE_address` for the directory at `page_directory`. -/
def PDE_address (page_directory addr : Nat) : Nat :=
  (page_directory + 4 * (addr >>> 22)) % WORD

/-- Method `PageTable::PTE_address`: `~0xFFF` is the word `0xFFFFF000`. -/
def PTE_address (mem : Mem) (page_directory addr : Nat) : Nat :=
  ((mem (PDE_address page_directory addr) &&& 0xFFFFF000) + 4 * ((addr >>> 12) &&& 0x3FF)) % WORD

/-- The static members of `PageTable` that `handle_fault` uses, and the memory. -/
structure Paging where
  mem : Mem
  kernel_mem_pool : ContFramePool
  process_mem_pool : ContFramePool
  current_page_table : PageTable

/-- Method `PageTable::handle_fault` for the fault address read from CR2. The result
is `false` with the state when the fault is reported as a segmentation fault,
`true` with the new state when it is handled, `none` when a `get_frames` does not
return. -/
def handle_fault (s : Paging) (fault_addr fuel : Nat) : Option (Bool × Paging) :=
  if ¬ s.current_page_table.head.any (fun current => current.is_legitimate fault_addr) then
    some (false, s)
  else
    let pde_addr := (s.current_page_table.page_directory + 4 * (fault_addr >>> 22)) % WORD
    let step1 : Option (Mem × ContFramePool) :=
      if s.mem pde_addr &&& 0x1 = 0 then
        match get_frames s.kernel_mem_pool 1 fuel with
        | none => none
        | some (pt_frame_no, kernel_mem_pool) =>
          let page_table := (pt_frame_no * PAGE_SIZE) % WORD
          let mem := store_loop page_table 1024 0 1024 0 s.mem
          some (write mem pde_addr (((pt_frame_no <<< 12) % WORD) ||| 0x3), kernel_mem_pool)
      else some (s.mem, s.kernel_mem_pool)
    match step1 with
    | none => none
    | some (mem, kernel_mem_pool) =>
      let pte_addr := ((mem pde_addr &&& 0xFFFFF000) + 4 * ((fault_addr >>> 12) &&& 0x3FF)) % WORD
      match get_frames s.process_mem_pool 1 fuel with
      | none => none
      | some (frame_no, process_mem_pool) =>
        some (true,
          { s with
            mem := write mem pte_addr (((frame_no <<< 12) % WORD) ||| 0x3)
            kernel_mem_pool := kernel_mem_pool
            process_mem_pool := process_mem_pool })

/-- Method `PageTable::free_page` of the table `this`, with `current` the loaded table
and `pools` the list of frame pools that `release_frames` walks: the memory, the
pool list and CR3 afterwards. In `*pte_addr & 0x1 == 1` the comparison binds
first, so the test is `*pte_addr & (0x1 == 1)`. -/
def PageTable.free_page (this current : PageTable) (mem : Mem) (pools : List ContFramePool)
    (cr3 _page_no fuel : Nat) : Option (Mem × List ContFramePool × Nat) :=
  let page_addr := (_page_no * PAGE_SIZE) % WORD
  let pte_addr := PTE_address mem current.page_directory page_addr
  if mem pte_addr &&& (if (0x1 : Nat) = 1 then 1 else 0) ≠ 0 then
    match release_frames pools (mem pte_addr >>> 12) fuel with
    | none => none
    | some pools => some (write mem pte_addr 0, pools, this.page_directory)
  else some (mem, pools, cr3)

/-- Modelled from the spec: the two-level translation of the MMU, which is hardware
and not part of the sources: directory index `a >> 22`, table index
`(a >> 12) & 0x3FF`, frame bits 12..31 of the entry, offset `a & 0xFFF`; `none`
when an entry on the way is not present. -/
def translate (mem : Mem) (page_directory a : Nat) : Option Nat :=
  let pde := mem ((page_directory + 4 * (a >>> 22)) % WORD)
  if pde &&& 0x1 = 0 then none
  else
    let pte := mem (((pde &&& 0xFFFFF000) + 4 * ((a >>> 12) &&& 0x3FF)) % WORD)
    if pte &&& 0x1 = 0 then none
    else some ((pte &&& 0xFFFFF000) ||| (a &&& 0xFFF))

/-! ## Sample states -/

/-- A VM pool whose region tables are all zero. -/
def empty_vm_pool (base size : Nat) : VMPool :=
  { base_address := base, size := size, regions := fun _ => { start := 0, length := 0 } }

/-- A VM pool over 4 MB at 1 GB with no allocation, whose `free_regions[0]` covers the
range after the pool's first page. -/
def sample_vm_pool : VMPool :=
  { base_address := 1073741824, size := 4194304,
    regions := fun j => if j = 256 then { start := 1073745920, length := 4190208 }
                        else { start := 0, length := 0 } }

/-- A kernel pool of frames 512..519 whose first frame hosts the bitmap. -/
def sample_kernel_pool : ContFramePool := pool_of 512 8 (bytes [0x02])

/-- A process pool of frames 1024..1031, all free. -/
def sample_process_pool : ContFramePool := pool_of 1024 8 (bytes [])

/-- The pool `sample_kernel_pool` after `get_frames(1)`. -/
def sample_kernel_pool_after : ContFramePool := ((get_frames sample_kernel_pool 1 8).get rfl).2

/-- The pool `sample_process_pool` after `get_frames(1)`. -/
def sample_process_pool_after : ContFramePool := ((get_frames sample_process_pool 1 8).get rfl).2

/-- A loaded table with one registered VM pool: its directory, at 0x200000, holds the
self-reference in entry 1023 and a page table at 0x201000 in entry 256. -/
def sample_paging : Paging :=
  { mem := fun x =>
      if x = 2097152 + 4 * 1023 then 2097152 ||| 0x3
      else if x = 2097152 + 4 * 256 then 2101248 ||| 0x3
      else 0
    kernel_mem_pool := sample_kernel_pool
    process_mem_pool := sample_process_pool
    current_page_table :=
      { page_directory := 2097152, head := [empty_vm_pool 1073741824 4194304] } }

/-- The state `sample_paging` with no VM pool registered. -/
def sample_paging_no_pool : Paging :=
  { sample_paging with current_page_table := { page_directory := 2097152, head := [] } }

/-- Memory with a directory at 0x200000 whose entry 0 references the table at 0x400000,
in which page 5 is mapped to frame 1025 and the other pages are not present. -/
def sample_mapped_mem : Mem := fun x =>
  if x = 2097152 then 4194304 ||| 0x3
  else if x = 4194304 + 4 * 5 then ((1025 <<< 12) % WORD) ||| 0x3
  else 0

/-! ## `VMPool::release`, sequences of `allocate`, and the list of frame pools -/

/-- The searches `while(r[off + i].start != target && i < 256) i++` of `release`, from
index `i`: the index at which the loop stops. The first argument counts the
evaluations of the loop condition still allowed; the caller passes 257, and the
loop stops at `i = 256` at the latest. -/
def release_find (r : Regions) (off target : Nat) : Nat → Nat → Nat
  | 0, i => i
  | k + 1, i =>
      if (r (off + i)).start ≠ target ∧ i < 256 then release_find r off target k (i + 1)
      else i

/-- The loop `for(k = start_page; k < bound; k++) page_table->free_page(k)` of `release`
on the memory, the frame-pool list and CR3. The first numeric argument after
`bound` counts the iterations still allowed; the caller passes
`bound - start_page`. The result is `none` when a `free_page` does not return. -/
def free_pages_loop (page_table current : PageTable) (fuel bound : Nat) :
    Nat → Nat → Mem × List ContFramePool × Nat → Option (Mem × List ContFramePool × Nat)
  | 0, _, st => some st
  | n + 1, k, st =>
      if k < bound then
        match page_table.free_page current st.1 st.2.1 st.2.2 k fuel with
        | none => none
        | some st2 => free_pages_loop page_table current fuel bound n ((k + 1) % WORD) st2
      else some st

/-- Method `VMPool::release`, for a pool whose `page_table` member is `page_table`: the
pool afterwards, with the memory, the frame-pool list and CR3 as the `free_page`
calls leave them. -/
def VMPool.release (p : VMPool) (page_table current : PageTable) (mem : Mem)
    (pools : List ContFramePool) (cr3 _start_address fuel : Nat) :
    Option (VMPool × Mem × List ContFramePool × Nat) :=
  let i := release_find p.regions 0 _start_address 257 0
  let j := release_find p.regions 256 0 257 0
  let r := set_start p.regions (256 + j) (p.regions i).start
  let r := set_length r (256 + j) (r i).length
  let start_page := (_start_address / PAGE_SIZE) % WORD
  let numPages := ((r i).length / PAGE_SIZE) % WORD
  match free_pages_loop page_table current fuel ((start_page + numPages) % WORD)
      ((start_page + numPages) % WORD - start_page) start_page (mem, pools, cr3) with
  | none => none
  | some st =>
      let r := set_length r i 0
      let r := set_start r i 0
      some ({ p with regions := r }, st)

/-- A sequence of `allocate` calls, each on the pool the previous one left: the pool
afterwards and the addresses returned, in order. -/
def allocate_all : VMPool → List Nat → VMPool × List Nat
  | p, [] => (p, [])
  | p, s :: ss => ((allocate_all (p.allocate s).2 ss).1, (p.allocate s).1 :: (allocate_all (p.allocate s).2 ss).2)

/-- The regions laid out one after the other from address `S`, one for each size
asked for, each of the page-rounded length `allocate` computes. -/
def layout (S : Nat) : List Nat → List MemRegion
  | [] => []
  | s :: ss => { start := S, length := allocate_bytes s } :: layout ((S + allocate_bytes s) % WORD) ss

/-- The static `ContFramePool::head` and the `next` members of the pool objects, each
object named by a number (its address). -/
structure PoolList where
  head : Option Nat
  next : Nat → Option Nat

/-- The loop `while(head->next != NULL) head = head->next` of the frame-pool
constructor, which advances the static `head` itself: the value of `head` when the
loop ends, `none` when the fuel runs out. -/
def register_walk (next : Nat → Option Nat) : Nat → Nat → Option Nat
  | 0, _ => none
  | k + 1, head =>
      match next head with
      | none => some head
      | some n => register_walk next k n

/-- The list management at the end of the `ContFramePool` constructor, for the object
`this`. -/
def register (l : PoolList) (this : Nat) (fuel : Nat) : Option PoolList :=
  match l.head with
  | none => some { head := some this, next := fun q => if q = this then none else l.next q }
  | some head =>
      match register_walk l.next fuel head with
      | none => none
      | some head =>
          some { head := some head,
                 next := fun q => if q = this then none
                                  else if q = head then some this else l.next q }

/-- The construction of the pool objects of a list, in order. -/
def register_all : PoolList → List Nat → Nat → Option PoolList
  | l, [], _ => some l
  | l, this :: rest, fuel =>
      match register l this fuel with
      | none => none
      | some l2 => register_all l2 rest fuel

/-- The pools that `release_frames` visits: from `head` along the `next` links until
`NULL`, at most `fuel` of them. -/
def visited (next : Nat → Option Nat) : Nat → Option Nat → List Nat
  | 0, _ => []
  | _ + 1, none => []
  | k + 1, some temp => temp :: visited next k (next temp)

/-- The list with no pool constructed yet. -/
def empty_pool_list : PoolList := { head := none, next := fun _ => none }

/-- A VM pool over 4 MB at 1 GB whose 256 allocated-region slots are all in use. -/
def full_vm_pool : VMPool :=
  { base_address := 1073741824, size := 4194304,
    regions := fun j => if j < 256 then { start := 1073745920 + 4096 * j, length := 4096 }
                        else { start := 0, length := 0 } }

/-- A VM pool over 4 MB at 1 GB with the region (0x40001000, 8192) allocated in slot 0
and 8192 bytes left in `free_regions[0]`. -/
def busy_vm_pool : VMPool :=
  { base_address := 1073741824, size := 4194304,
    regions := fun j =>
      if j = 0 then { start := 1073745920, length := 8192 }
      else if j = 256 then { start := 1077927936, length := 8192 }
      else { start := 0, length := 0 } }

/-- A kernel pool of frames 512..519 whose first two frames are in use. -/
def sample_kernel_pool_two : ContFramePool := pool_of 512 8 (bytes [0x0A])

/-- The pool `sample_kernel_pool_two` after `get_frames(1)`. -/
def sample_kernel_pool_two_after : ContFramePool :=
  ((get_frames sample_kernel_pool_two 1 8).get rfl).2

/-- The state `sample_paging` with the kernel pool `sample_kernel_pool_two`. -/
def sample_paging_two : Paging :=
  { sample_paging with kernel_mem_pool := sample_kernel_pool_two }

end MP4

namespace MP4

/-! ## The 2-bit encoding: array-update law -/

theorem get_state_eq (bm : Bitmap) (f : Nat) :
    get_state bm f = decode (field_of (bm (f / 4)) (f % 4)) := rfl

theorem set_state_byte_mod (b f : Nat) (s : FrameState) :
    set_state_byte b f s = set_state_byte (b % 256) (f % 4) s := by
  simp [set_state_byte, Nat.mod_mod]

theorem field_of_mod (b k : Nat) : field_of b k = field_of (b % 256) k := by
  simp [field_of, Nat.mod_mod]

set_option maxRecDepth 1000000 in
theorem byte_same_fin : ∀ b : Fin 256, ∀ k : Fin 4,
    decode (field_of (set_state_byte b.val k.val FrameState.Free) k.val) = FrameState.Free ∧
    decode (field_of (set_state_byte b.val k.val FrameState.Used) k.val) = FrameState.Used ∧
    decode (field_of (set_state_byte b.val k.val FrameState.HoS) k.val) = FrameState.HoS := by
  decide

set_option maxRecDepth 1000000 in
theorem byte_other_fin : ∀ b : Fin 256, ∀ k k2 : Fin 4, k ≠ k2 →
    field_of (set_state_byte b.val k.val FrameState.Free) k2.val = field_of b.val k2.val ∧
    field_of (set_state_byte b.val k.val FrameState.Used) k2.val = field_of b.val k2.val ∧
    field_of (set_state_byte b.val k.val FrameState.HoS) k2.val = field_of b.val k2.val := by
  decide

theorem byte_same (b f : Nat) (s : FrameState) :
    decode (field_of (set_state_byte b f s) (f % 4)) = s := by
  rw [set_state_byte_mod]
  have h := byte_same_fin ⟨b % 256, Nat.mod_lt _ (by norm_num)⟩ ⟨f % 4, Nat.mod_lt _ (by norm_num)⟩
  cases s
  · exact h.1
  · exact h.2.1
  · exact h.2.2

theorem byte_other (b f g : Nat) (s : FrameState) (h : f % 4 ≠ g % 4) :
    field_of (set_state_byte b f s) (g % 4) = field_of b (g % 4) := by
  rw [set_state_byte_mod, field_of_mod b]
  have h2 := byte_other_fin ⟨b % 256, Nat.mod_lt _ (by norm_num)⟩
    ⟨f % 4, Nat.mod_lt _ (by norm_num)⟩ ⟨g % 4, Nat.mod_lt _ (by norm_num)⟩
    (by intro e; exact h (congrArg Fin.val e))
  cases s
  · exact h2.1
  · exact h2.2.1
  · exact h2.2.2

/-- Reading back the frame just written gives the state written. -/
theorem get_set_same (bm : Bitmap) (f : Nat) (s : FrameState) :
    get_state (set_state bm f s) f = s := by
  rw [get_state_eq]
  simp only [set_state, if_true]
  exact byte_same _ _ _

/-- Writing frame `f` leaves the state of every other frame as it was. -/
theorem get_set_other (bm : Bitmap) (f g : Nat) (s : FrameState) (h : g ≠ f) :
    get_state (set_state bm f s) g = get_state bm g := by
  rw [get_state_eq, get_state_eq]
  by_cases hb : g / 4 = f / 4
  · have hk : f % 4 ≠ g % 4 := by omega
    simp only [set_state, hb, if_true]
    rw [byte_other _ _ _ _ hk]
  · simp only [set_state, hb, if_false]

theorem get_set (bm : Bitmap) (f g : Nat) (s : FrameState) :
    get_state (set_state bm f s) g = if g = f then s else get_state bm g := by
  by_cases h : g = f
  · subst h; simp [get_set_same]
  · simp [h, get_set_other]

/-! ## The loops of `get_frames` -/

theorem mark_loop_spec (first bound : Nat) (hb : bound < WORD) :
    ∀ (k i : Nat) (bm : Bitmap), i + k = bound → ∀ j,
      get_state (mark_loop first bound k i bm) j =
        if i ≤ j ∧ j < bound then (if j = first then FrameState.HoS else FrameState.Used)
        else get_state bm j := by
  intro k
  induction k with
  | zero =>
    intro i bm hk j
    have : ¬ (i ≤ j ∧ j < bound) := by omega
    simp [mark_loop, this]
  | succ k ih =>
    intro i bm hk j
    have hlt : i < bound := by omega
    have hw : (i + 1) % WORD = i + 1 := Nat.mod_eq_of_lt (by omega)
    simp only [mark_loop, hlt, if_true, hw]
    rw [ih (i + 1) _ (by omega) j, get_set]
    by_cases hji : j = i
    · subst hji
      have h1 : ¬ (j + 1 ≤ j ∧ j < bound) := by omega
      simp [h1, hlt]
    · by_cases hr : i ≤ j ∧ j < bound
      · have h1 : i + 1 ≤ j ∧ j < bound := by omega
        simp [hr, h1]
      · have h1 : ¬ (i + 1 ≤ j ∧ j < bound) := by omega
        simp [hr, h1, hji]

theorem scan_finds (bm : Bitmap) (n i0 : Nat) (hn : 1 ≤ n) (hb : i0 + n < WORD)
    (hfree : FreeRun bm i0 n) (hleast : ∀ i, i < i0 → ¬ FreeRun bm i n) :
    ∀ (fuel c f h : Nat), c ≤ f → f - c ≤ i0 → c ≤ n → FreeRun bm (f - c) c →
      (0 < c → h = f - c) → i0 + n ≤ f + fuel →
      get_frames_scan bm n fuel c f h = some (n, i0 + n, i0) := by
  intro fuel
  induction fuel with
  | zero =>
    intro c f h hcf hs hcn hrun hh hfuel
    have hc : c = n := by omega
    subst hc
    have hs2 : f - c = i0 := by
      by_contra hne
      exact hleast (f - c) (by omega) hrun
    have hf : f = i0 + c := by omega
    have hh2 : h = i0 := by rw [hh (by omega), hs2]
    simp [get_frames_scan, hf, hh2]
  | succ fuel ih =>
    intro c f h hcf hs hcn hrun hh hfuel
    by_cases hc : c = n
    · subst hc
      have hs2 : f - c = i0 := by
        by_contra hne
        exact hleast (f - c) (by omega) hrun
      have hf : f = i0 + c := by omega
      have hh2 : h = i0 := by rw [hh (by omega), hs2]
      simp [get_frames_scan, hf, hh2]
    · have hlt : c < n := by omega
      have hwc : (c + 1) % WORD = c + 1 := Nat.mod_eq_of_lt (by omega)
      have hwf : (f + 1) % WORD = f + 1 := Nat.mod_eq_of_lt (by omega)
      simp only [get_frames_scan, hlt, if_true, hwc, hwf]
      by_cases hst : get_state bm f = FrameState.Free
      · simp only [hst, if_true]
        apply ih
        · omega
        · omega
        · omega
        · intro k hk
          by_cases hk2 : k < c
          · have := hrun k hk2
            rwa [show f + 1 - (c + 1) = f - c by omega]
          · have hkc : k = c := by omega
            rw [show f + 1 - (c + 1) + k = f by omega]
            exact hst
        · intro _
          by_cases hc0 : c = 0
          · subst hc0; simp
          · have : ¬ (c + 1 = 1) := by omega
            simp only [this, if_false]
            rw [hh (by omega)]; omega
        · omega
      · simp only [hst, if_false]
        have hfi : f < i0 := by
          by_contra hge
          apply hst
          have := hfree (f - i0) (by omega)
          rwa [show i0 + (f - i0) = f by omega] at this
        apply ih
        · omega
        · omega
        · omega
        · intro k hk; omega
        · intro h0; omega
        · omega

/-! ## C1: `get_frames` is first-fit -/

/-- C1: when the pool holds a run of `n ≥ 1` free frames and `i0` is the least local
index starting one, `get_frames n` returns (given fuel for `nframes` iterations)
the frame number `base_frame_no + i0` (a 32-bit sum, exact when the pool's range
fits the word), frame `i0` is then `HoS`, frames `i0+1 .. i0+n-1` are `Used`, the
state of every other frame is unchanged, and so are the other fields. -/
theorem get_frames_first_fit (p : ContFramePool) (n i0 fuel : Nat)
    (hn : 1 ≤ n) (hword : p.nframes < WORD) (hfit : i0 + n ≤ p.nframes)
    (hfree : FreeRun p.bitmap i0 n) (hleast : ∀ i, i < i0 → ¬ FreeRun p.bitmap i n)
    (hfuel : p.nframes ≤ fuel) :
    ∃ p2, get_frames p n fuel = some ((i0 + p.base_frame_no) % WORD, p2) ∧
      (p.base_frame_no + p.nframes ≤ WORD →
        (i0 + p.base_frame_no) % WORD = p.base_frame_no + i0) ∧
      get_state p2.bitmap i0 = FrameState.HoS ∧
      (∀ j, i0 < j → j < i0 + n → get_state p2.bitmap j = FrameState.Used) ∧
      (∀ j, ¬ (i0 ≤ j ∧ j < i0 + n) → get_state p2.bitmap j = get_state p.bitmap j) ∧
      p2.base_frame_no = p.base_frame_no ∧ p2.nframes = p.nframes ∧
      p2.nFreeFrames = p.nFreeFrames ∧ p2.info_frame_no = p.info_frame_no := by
  have hb : i0 + n < WORD := by omega
  have hscan := scan_finds p.bitmap n i0 hn hb hfree hleast fuel 0 0 0 (le_refl _)
    (by omega) (by omega) (by intro k hk; omega) (by intro h; omega) (by omega)
  have hw : (i0 + n) % WORD = i0 + n := Nat.mod_eq_of_lt hb
  have hspec := mark_loop_spec i0 (i0 + n) hb (i0 + n - i0) i0 p.bitmap (by omega)
  refine ⟨{ p with bitmap := mark_loop i0 (i0 + n) (i0 + n - i0) i0 p.bitmap },
    ?_, ?_, ?_, ?_, ?_, rfl, rfl, rfl, rfl⟩
  · simp only [get_frames, hscan, lt_irrefl, if_false, hw]
  · intro hr
    rw [Nat.mod_eq_of_lt (by omega)]; omega
  · show get_state (mark_loop i0 (i0 + n) (i0 + n - i0) i0 p.bitmap) i0 = _
    rw [hspec]
    have : i0 ≤ i0 ∧ i0 < i0 + n := by omega
    simp [this]
  · intro j h1 h2
    show get_state (mark_loop i0 (i0 + n) (i0 + n - i0) i0 p.bitmap) j = _
    rw [hspec]
    have : i0 ≤ j ∧ j < i0 + n := by omega
    have hne : j ≠ i0 := by omega
    simp [this, hne]
  · intro j hj
    show get_state (mark_loop i0 (i0 + n) (i0 + n - i0) i0 p.bitmap) j = _
    rw [hspec]
    simp [hj]

/-- Witness for C1: the pool of frames 10..19 whose first frame is `HoS`; the least
free run of three frames starts at local index 1. -/
theorem get_frames_first_fit_witness :
    ∃ p2, get_frames (pool_of 10 10 (bytes [0x02])) 3 10 = some ((1 + 10) % WORD, p2) ∧
      ((pool_of 10 10 (bytes [0x02])).base_frame_no + (pool_of 10 10 (bytes [0x02])).nframes ≤ WORD →
        (1 + 10) % WORD = 10 + 1) ∧
      get_state p2.bitmap 1 = FrameState.HoS ∧
      (∀ j, 1 < j → j < 1 + 3 → get_state p2.bitmap j = FrameState.Used) ∧
      (∀ j, ¬ (1 ≤ j ∧ j < 1 + 3) →
        get_state p2.bitmap j = get_state (pool_of 10 10 (bytes [0x02])).bitmap j) ∧
      p2.base_frame_no = 10 ∧ p2.nframes = 10 ∧ p2.nFreeFrames = 10 ∧ p2.info_frame_no = 0 :=
  get_frames_first_fit (pool_of 10 10 (bytes [0x02])) 3 1 10 (by decide) (by decide) (by decide)
    (by decide) (by decide) (by decide)

/-! ## C2: `get_frames` when the pool holds no run -/

/-- The scan never ends on memory in which every frame reads `Used`. -/
theorem scan_all_used_diverges (n : Nat) (hn : 1 ≤ n) :
    ∀ fuel f, get_frames_scan (fun _ => 0x55) n fuel 0 f 0 = none := by
  intro fuel
  induction fuel with
  | zero =>
    intro f
    have : 0 < n := hn
    simp [get_frames_scan, this]
  | succ fuel ih =>
    intro f
    have h0 : 0 < n := hn
    have hst : get_state (fun _ => 0x55) f ≠ FrameState.Free := by
      rw [get_state_eq]
      have hk : f % 4 < 4 := Nat.mod_lt _ (by norm_num)
      interval_cases (f % 4) <;> decide
    simp only [get_frames_scan, h0, if_true, hst, if_false]
    exact ih _

/-- The scan only ends with `cons_free ≥ _n_frames`: the failure branch that follows
it in `get_frames` is never taken. -/
theorem scan_exit (bm : Bitmap) (n : Nat) :
    ∀ (fuel c f h c2 f2 h2 : Nat),
      get_frames_scan bm n fuel c f h = some (c2, f2, h2) → ¬ c2 < n := by
  intro fuel
  induction fuel with
  | zero =>
    intro c f h c2 f2 h2 hs
    by_cases hc : c < n
    · simp [get_frames_scan, hc] at hs
    · simp only [get_frames_scan, hc, if_false, Option.some.injEq, Prod.mk.injEq] at hs
      omega
  | succ fuel ih =>
    intro c f h c2 f2 h2 hs
    by_cases hc : c < n
    · simp only [get_frames_scan, hc, if_true] at hs
      by_cases hst : get_state bm f = FrameState.Free
      · simp only [hst, if_true] at hs
        exact ih _ _ _ _ _ _ hs
      · simp only [hst, if_false] at hs
        exact ih _ _ _ _ _ _ hs
    · simp only [get_frames_scan, hc, if_false, Option.some.injEq, Prod.mk.injEq] at hs
      omega

/-- C2 (the code at a failing input): a pool of 4 frames, frame 0 `HoS` and frames
1..3 `Used`, followed by zeroed memory, has no free frame; `get_frames 1` still
scans on to bitmap entry 4 (the scan ends with `frame_no = 5`), returns
`base_frame_no + 4 = 4` instead of the sentinel 0, and turns entry 4 from `Free`
into `HoS`. -/
theorem get_frames_overruns_pool :
    (∀ i, i < 4 → ¬ FreeRun (pool_of 0 4 (bytes [0x56])).bitmap i 1) ∧
    get_frames_scan (pool_of 0 4 (bytes [0x56])).bitmap 1 5 0 0 0 = some (1, 5, 4) ∧
    (get_frames (pool_of 0 4 (bytes [0x56])) 1 5).map Prod.fst = some 4 ∧
    get_state (pool_of 0 4 (bytes [0x56])).bitmap 4 = FrameState.Free ∧
    (get_frames (pool_of 0 4 (bytes [0x56])) 1 5).map (fun r => get_state r.2.bitmap 4)
      = some FrameState.HoS := by
  decide

/-! ## C3: allocate / release round trip -/

/-- C3 (the code at a failing input): on the all-free pool of frames 4..7,
`get_frames 2` returns 4; the following `release_frames 4` leaves local frames 0 and
1 (frames 4 and 5) `HoS` and `Used`, because the release indexes the bitmap with
the absolute frame number; a further `get_frames 2` returns 6, not 4. -/
theorem round_trip_fails_nonzero_base :
    (get_frames (pool_of 4 4 (bytes [])) 2 4).bind (fun r =>
      (release_frames [r.2] r.1 4).bind (fun l =>
        (l.head?.bind (fun q => get_frames q 2 4)).map (fun r2 =>
          (r.1, l.map (fun q => [get_state q.bitmap 0, get_state q.bitmap 1]), r2.1))))
      = some (4, [[FrameState.HoS, FrameState.Used]], 6) := by
  decide

/-! ## C4: instance-level release -/

/-- C4 (the code at failing inputs): in the pool of frames 4..7 whose frame 4 (local
index 0) is `HoS`, `release_frames_in_pool 4` writes bitmap entry 4 and leaves
local frame 0 `HoS`; and in the pool of frames 0..3 that is one run `HoS, Used,
Used, Used` followed by an entry reading `Used`, `release_frames_in_pool 0` also
frees entry 4, beyond the pool's last frame. -/
theorem release_in_pool_misses_run :
    get_state (pool_of 4 4 (bytes [0x02])).bitmap 0 = FrameState.HoS ∧
    (release_frames_in_pool (pool_of 4 4 (bytes [0x02])) 4 4).map
        (fun q => (List.range 5).map (get_state q.bitmap))
      = some [FrameState.HoS, FrameState.Free, FrameState.Free, FrameState.Free,
          FrameState.Free] ∧
    (List.range 5).map (get_state (pool_of 0 4 (bytes [0x56, 0x01])).bitmap)
      = [FrameState.HoS, FrameState.Used, FrameState.Used, FrameState.Used,
          FrameState.Used] ∧
    (release_frames_in_pool (pool_of 0 4 (bytes [0x56, 0x01])) 0 8).map
        (fun q => (List.range 5).map (get_state q.bitmap))
      = some [FrameState.Free, FrameState.Free, FrameState.Free, FrameState.Free,
          FrameState.Free] := by
  decide

/-! ## C5: ownership test of the static `release_frames` -/

/-- C5 (the code at a failing input): with the pools of frames 0..3 and 4..11 in the
list, frame 4 lies in the half-open range of the second pool only, yet
`release_frames 4` delegates to the first pool (`0 <= 4 && 0 + 4 >= 4`): entry 4 of
the first pool's bitmap goes from `HoS` to `Free` and the second pool is left as
it was. With the first pool alone in the list, frame 4 is in no pool's range and
the bitmap is changed all the same. -/
theorem release_frames_inclusive_bound :
    claims (pool_of 0 4 (bytes [0x56, 0x02])) 4 = true ∧
    release_frames [pool_of 0 4 (bytes [0x56, 0x02]), pool_of 4 8 (bytes [0x02, 0x02])] 4 4
      = (release_frames_in_pool (pool_of 0 4 (bytes [0x56, 0x02])) 4 4).map
          (fun t => [t, pool_of 4 8 (bytes [0x02, 0x02])]) ∧
    get_state (pool_of 0 4 (bytes [0x56, 0x02])).bitmap 4 = FrameState.HoS ∧
    (release_frames [pool_of 0 4 (bytes [0x56, 0x02]), pool_of 4 8 (bytes [0x02, 0x02])] 4 4).map
        (fun l => l.map (fun q => (get_state q.bitmap 0, get_state q.bitmap 4)))
      = some [(FrameState.HoS, FrameState.Free), (FrameState.HoS, FrameState.HoS)] ∧
    (release_frames [pool_of 0 4 (bytes [0x56, 0x02])] 4 4).map
        (fun l => l.map (fun q => get_state q.bitmap 4))
      = some [FrameState.Free] := by
  refine ⟨by decide, rfl, by decide, by decide, by decide⟩

/-! ## C6: `mark_inaccessible` -/

/-- C6 (the code at a failing input): on the all-free pool of frames 4..11,
`mark_inaccessible 4 2` marks bitmap entries 4 and 5 (frames 8 and 9) and leaves
entries 0 and 1 (frames 4 and 5) `Free`; the next `get_frames 1` returns frame 4,
a frame of the reserved range. -/
theorem mark_inaccessible_frame_handed_out :
    (List.range 8).map (get_state (mark_inaccessible (pool_of 4 8 (bytes [])) 4 2).bitmap)
      = [FrameState.Free, FrameState.Free, FrameState.Free, FrameState.Free,
          FrameState.HoS, FrameState.Used, FrameState.Free, FrameState.Free] ∧
    (get_frames (mark_inaccessible (pool_of 4 8 (bytes [])) 4 2) 1 8).map Prod.fst = some 4 := by
  decide

/-! ## C8: `needed_info_frames` -/

/-- C8: for every frame count `n` that fits a machine word, `needed_info_frames n` is
`n / 16384` rounded up: the least `k` with `k * 4096 * 8 ≥ 2 * n`; it is 0 for
`n = 0`, 1 for `1 ≤ n ≤ 16384`, and 2 for `n = 16385`. -/
theorem needed_info_frames_ceil (n : Nat) (hn : n < WORD) :
    needed_info_frames n = (n + 16383) / 16384 ∧
    2 * n ≤ needed_info_frames n * 4096 * 8 ∧
    (∀ k, 2 * n ≤ k * 4096 * 8 → needed_info_frames n ≤ k) ∧
    (n = 0 → needed_info_frames n = 0) ∧
    (1 ≤ n → n ≤ 16384 → needed_info_frames n = 1) ∧
    (n = 16385 → needed_info_frames n = 2) := by
  have hW : WORD = 4294967296 := by norm_num [WORD]
  have hval : needed_info_frames n = (n + 16383) / 16384 := by
    unfold needed_info_frames
    rw [hW] at hn ⊢
    split <;> omega
  rw [hval]
  refine ⟨rfl, ?_, ?_, ?_, ?_, ?_⟩ <;> intros <;> omega

/-- Witness for C8 at `n = 16385`. -/
theorem needed_info_frames_ceil_witness :
    needed_info_frames 16385 = (16385 + 16383) / 16384 ∧
    2 * 16385 ≤ needed_info_frames 16385 * 4096 * 8 ∧
    (∀ k, 2 * 16385 ≤ k * 4096 * 8 → needed_info_frames 16385 ≤ k) ∧
    (16385 = 0 → needed_info_frames 16385 = 0) ∧
    (1 ≤ 16385 → 16385 ≤ 16384 → needed_info_frames 16385 = 1) ∧
    (16385 = 16385 → needed_info_frames 16385 = 2) :=
  needed_info_frames_ceil 16385 (by decide)

/-! ## C9: the constructor's assertion -/

/-- C9 (the code at a failing input): the constructor's assertion passes exactly
when `n_frames ≤ 32768`; it passes for 16385 frames, whose 2-bit bitmap does not
fit one 4096-byte frame and for which `needed_info_frames` asks for two. -/
theorem construct_assert_bound (base n info : Nat) (mem : Bitmap) :
    ((construct base n info mem).isSome = true ↔ n ≤ 32768) ∧
    (construct base 16385 info mem).isSome = true ∧
    ¬ (2 * 16385 ≤ 4096 * 8) ∧ needed_info_frames 16385 = 2 := by
  refine ⟨?_, ?_, by decide, by decide⟩
  · unfold construct FRAME_SIZE
    split <;> simp <;> omega
  · unfold construct FRAME_SIZE
    simp

/-! ## The constructor -/

theorem init_loop_spec (nframes : Nat) :
    ∀ (k fno : Nat) (bm : Bitmap), fno + k = nframes → ∀ j,
      get_state (init_loop nframes k fno bm) j =
        if fno ≤ j ∧ j < nframes then FrameState.Free else get_state bm j := by
  intro k
  induction k with
  | zero =>
    intro fno bm hk j
    have : ¬ (fno ≤ j ∧ j < nframes) := by omega
    simp [init_loop, this]
  | succ k ih =>
    intro fno bm hk j
    have hlt : fno < nframes := by omega
    simp only [init_loop, hlt, if_true]
    rw [ih (fno + 1) _ (by omega) j, get_set]
    by_cases hji : j = fno
    · subst hji
      have h1 : ¬ (j + 1 ≤ j ∧ j < nframes) := by omega
      simp [h1, hlt]
    · by_cases hr : fno ≤ j ∧ j < nframes
      · have h1 : fno + 1 ≤ j ∧ j < nframes := by omega
        simp [hr, h1]
      · have h1 : ¬ (fno + 1 ≤ j ∧ j < nframes) := by omega
        simp [hr, h1, hji]

/-- What the constructor leaves: the fields, and the state of every bitmap entry. -/
theorem construct_spec (base n info : Nat) (mem : Bitmap) (p : ContFramePool)
    (h : construct base n info mem = some p) :
    n ≤ 32768 ∧ p.base_frame_no = base ∧ p.nframes = n ∧ p.nFreeFrames = n ∧
    p.info_frame_no = info ∧
    ∀ j, get_state p.bitmap j =
      if j = info then FrameState.HoS else if j < n then FrameState.Free else get_state mem j := by
  unfold construct FRAME_SIZE at h
  by_cases hn : n ≤ 4096 * 8
  · simp only [hn, if_true, Option.some.injEq] at h
    subst h
    refine ⟨by omega, rfl, rfl, rfl, rfl, ?_⟩
    intro j
    show get_state (set_state (init_loop n n 0 mem) info FrameState.HoS) j = _
    rw [get_set, init_loop_spec n n 0 mem (by omega) j]
    simp
  · simp [hn] at h

/-! ## C10: initial state of a frame pool -/

/-- C10 (the code at failing inputs): `construct 8 8 3` on zeroed memory, whose info
frame 3 lies outside frames 8..15, leaves local frame 3 (frame 11) `HoS`, not
`Free`; `construct 8 8 20` writes bitmap entry 20, beyond the pool's 8 entries;
the self-hosted `construct 8 8 0` marks local frame 0 alone, as claimed. -/
theorem construct_marks_info_index :
    (construct 8 8 3 (bytes [])).map (fun p => (List.range 8).map (get_state p.bitmap))
      = some [FrameState.Free, FrameState.Free, FrameState.Free, FrameState.HoS,
          FrameState.Free, FrameState.Free, FrameState.Free, FrameState.Free] ∧
    get_state (bytes []) 20 = FrameState.Free ∧
    (construct 8 8 20 (bytes [])).map (fun p => get_state p.bitmap 20) = some FrameState.HoS ∧
    (construct 8 8 0 (bytes [])).map (fun p => (List.range 8).map (get_state p.bitmap))
      = some [FrameState.HoS, FrameState.Free, FrameState.Free, FrameState.Free,
          FrameState.Free, FrameState.Free, FrameState.Free, FrameState.Free] := by
  decide

/-! ## C7: bookkeeping across sequences of calls -/

theorem construct_runs (base n info : Nat) (mem : Bitmap) (p : ContFramePool)
    (h : construct base n info mem = some p) : RunsWellFormed n p.bitmap := by
  obtain ⟨_, _, _, _, _, hst⟩ := construct_spec base n info mem p h
  intro j hj hu
  rw [hst j] at hu
  by_cases h1 : j = info
  · simp [h1] at hu
  · simp [h1, hj] at hu

/-- Marking a run keeps the runs well formed, wherever the run is placed. -/
theorem mark_loop_runs (N first bound : Nat) (hb : bound < WORD) (bm : Bitmap)
    (hinv : RunsWellFormed N bm) :
    RunsWellFormed N (mark_loop first bound (bound - first) first bm) := by
  by_cases hlt : first < bound
  · have hspec := mark_loop_spec first bound hb (bound - first) first bm (by omega)
    intro j hj hu
    rw [hspec j] at hu
    by_cases hr : first ≤ j ∧ j < bound
    · have hne : j ≠ first := by
        intro e
        subst e
        simp only [hr, and_self, if_true] at hu
        exact absurd hu (by decide)
      refine ⟨by omega, ?_⟩
      rw [hspec (j - 1)]
      have hr2 : first ≤ j - 1 ∧ j - 1 < bound := by omega
      simp only [hr2, and_self, if_true]
      split <;> simp
    · simp only [hr, if_false] at hu
      obtain ⟨h0, hp⟩ := hinv j hj hu
      refine ⟨h0, ?_⟩
      rw [hspec (j - 1)]
      by_cases hr2 : first ≤ j - 1 ∧ j - 1 < bound
      · simp only [hr2, and_self, if_true]
        split <;> simp
      · simp only [hr2, if_false]
        exact hp
  · have hz : bound - first = 0 := by omega
    rw [hz]
    exact hinv

/-- A call of `get_frames` that returns changes the bitmap only, and keeps the runs
well formed. -/
theorem get_frames_runs (N : Nat) (p q : ContFramePool) (n fuel r : Nat)
    (h : get_frames p n fuel = some (r, q)) :
    q.base_frame_no = p.base_frame_no ∧ q.nframes = p.nframes ∧
    q.nFreeFrames = p.nFreeFrames ∧ q.info_frame_no = p.info_frame_no ∧
    (RunsWellFormed N p.bitmap → RunsWellFormed N q.bitmap) := by
  unfold get_frames at h
  cases hs : get_frames_scan p.bitmap n fuel 0 0 0 with
  | none => simp [hs] at h
  | some t =>
    obtain ⟨c, f, hd⟩ := t
    simp only [hs] at h
    by_cases hc : c < n
    · simp only [hc, if_true, Option.some.injEq, Prod.mk.injEq] at h
      obtain ⟨_, hq⟩ := h
      subst hq
      exact ⟨rfl, rfl, rfl, rfl, id⟩
    · simp only [hc, if_false, Option.some.injEq, Prod.mk.injEq] at h
      obtain ⟨_, hq⟩ := h
      subst hq
      refine ⟨rfl, rfl, rfl, rfl, ?_⟩
      intro hinv
      exact mark_loop_runs N hd ((hd + n) % WORD) (Nat.mod_lt _ (by norm_num [WORD])) p.bitmap hinv

theorem release_loop_runs (N : Nat) (hN : N ≤ WORD) :
    ∀ (fuel curr : Nat) (bm bm2 : Bitmap), release_loop fuel curr bm = some bm2 →
      RunsWellFormedExcept N bm curr → RunsWellFormed N bm2 := by
  intro fuel
  induction fuel with
  | zero =>
    intro curr bm bm2 h
    simp [release_loop] at h
  | succ fuel ih =>
    intro curr bm bm2 h hinv
    have hstep : RunsWellFormedExcept N (set_state bm curr FrameState.Free)
        ((curr + 1) % WORD) := by
      intro j hj hu hne
      rw [get_set] at hu
      have hjc : j ≠ curr := by
        intro e
        simp [e] at hu
      simp only [hjc, if_false] at hu
      obtain ⟨h0, hp⟩ := hinv j hj hu hjc
      refine ⟨h0, ?_⟩
      rw [get_set]
      have hpc : j - 1 ≠ curr := by
        intro e
        apply hne
        have : curr + 1 = j := by omega
        rw [this, Nat.mod_eq_of_lt (by omega)]
      simp only [hpc, if_false]
      exact hp
    simp only [release_loop] at h
    by_cases hu : get_state (set_state bm curr FrameState.Free) ((curr + 1) % WORD)
        = FrameState.Used
    · simp only [hu, if_true] at h
      exact ih _ _ _ h hstep
    · simp only [hu, if_false, Option.some.injEq] at h
      subst h
      intro j hj hju
      by_cases hjc : j = (curr + 1) % WORD
      · subst hjc
        exact absurd hju hu
      · exact hstep j hj hju hjc

/-- A call of `release_frames_in_pool` that returns changes the bitmap only, and
keeps the runs well formed, whatever frame it is applied to. -/
theorem release_in_pool_runs (N : Nat) (hN : N ≤ WORD) (p q : ContFramePool) (f fuel : Nat)
    (h : release_frames_in_pool p f fuel = some q) :
    q.base_frame_no = p.base_frame_no ∧ q.nframes = p.nframes ∧
    q.nFreeFrames = p.nFreeFrames ∧ q.info_frame_no = p.info_frame_no ∧
    (RunsWellFormed N p.bitmap → RunsWellFormed N q.bitmap) := by
  unfold release_frames_in_pool at h
  cases hs : release_loop fuel (f % WORD) p.bitmap with
  | none => simp [hs] at h
  | some bm2 =>
    simp only [hs, Option.map_some', Option.some.injEq] at h
    subst h
    refine ⟨rfl, rfl, rfl, rfl, ?_⟩
    intro hinv
    exact release_loop_runs N hN fuel (f % WORD) p.bitmap bm2 hs
      (fun j hj hu _ => hinv j hj hu)

theorem run_calls_runs (N : Nat) (hN : N ≤ WORD) :
    ∀ (calls : List Call) (p q : ContFramePool), run_calls p calls = some q →
      q.nframes = p.nframes ∧ q.nFreeFrames = p.nFreeFrames ∧
      (RunsWellFormed N p.bitmap → RunsWellFormed N q.bitmap) := by
  intro calls
  induction calls with
  | nil =>
    intro p q h
    simp only [run_calls, Option.some.injEq] at h
    subst h
    exact ⟨rfl, rfl, id⟩
  | cons c cs ih =>
    intro p q h
    cases c with
    | get_frames n fuel =>
      simp only [run_calls] at h
      cases hg : get_frames p n fuel with
      | none => simp [hg] at h
      | some r =>
        obtain ⟨r1, p1⟩ := r
        simp only [hg, Option.some_bind] at h
        obtain ⟨_, h2, h3, _, h5⟩ := get_frames_runs N p p1 n fuel r1 hg
        obtain ⟨k2, k3, k5⟩ := ih p1 q h
        exact ⟨k2.trans h2, k3.trans h3, fun hi => k5 (h5 hi)⟩
    | release_frames_in_pool f fuel =>
      simp only [run_calls] at h
      cases hg : release_frames_in_pool p f fuel with
      | none => simp [hg] at h
      | some p1 =>
        simp only [hg, Option.some_bind] at h
        obtain ⟨_, h2, h3, _, h5⟩ := release_in_pool_runs N hN p p1 f fuel hg
        obtain ⟨k2, k3, k5⟩ := ih p1 q h
        exact ⟨k2.trans h2, k3.trans h3, fun hi => k5 (h5 hi)⟩

/-- With well-formed runs, each frame that is not `Free` lies in the run of exactly
one `HoS` frame. -/
theorem runs_unique_head (N : Nat) (bm : Bitmap) (hinv : RunsWellFormed N bm) :
    ∀ j, j < N → get_state bm j ≠ FrameState.Free →
      ∃! h, h ≤ j ∧ get_state bm h = FrameState.HoS ∧
        ∀ i, h < i → i ≤ j → get_state bm i = FrameState.Used := by
  have hex : ∀ j, j < N → get_state bm j ≠ FrameState.Free →
      ∃ h, h ≤ j ∧ get_state bm h = FrameState.HoS ∧
        ∀ i, h < i → i ≤ j → get_state bm i = FrameState.Used := by
    intro j
    induction j with
    | zero =>
      intro hj hne
      cases hst : get_state bm 0 with
      | Free => exact absurd hst hne
      | Used => exact absurd (hinv 0 hj hst).1 (lt_irrefl 0)
      | HoS => exact ⟨0, le_refl _, hst, fun i h1 h2 => by omega⟩
    | succ j ih =>
      intro hj hne
      cases hst : get_state bm (j + 1) with
      | Free => exact absurd hst hne
      | HoS => exact ⟨j + 1, le_refl _, hst, fun i h1 h2 => by omega⟩
      | Used =>
        obtain ⟨_, hp⟩ := hinv (j + 1) hj hst
        obtain ⟨h, hle, hh, hrun⟩ := ih (by omega) hp
        refine ⟨h, by omega, hh, ?_⟩
        intro i h1 h2
        by_cases hi : i = j + 1
        · rw [hi]; exact hst
        · exact hrun i h1 (by omega)
  intro j hj hne
  obtain ⟨h, hle, hh, hrun⟩ := hex j hj hne
  refine ⟨h, ⟨hle, hh, hrun⟩, ?_⟩
  rintro h2 ⟨hle2, hh2, hrun2⟩
  by_contra hdiff
  rcases Nat.lt_or_gt_of_ne hdiff with hlt | hgt
  · have := hrun2 h hlt hle
    rw [hh] at this
    exact absurd this (by decide)
  · have := hrun h2 hgt hle2
    rw [hh2] at this
    exact absurd this (by decide)

/-- C7 (the code at a failing input): the freshly constructed self-hosted pool of 4
frames has one frame that is not `Free` while `n - nFreeFrames` is 0; after a
successful `get_frames 2`, which returns frame 1, three frames are not `Free` and
`nFreeFrames` is still 4, not 2: the counter set by the constructor is not
maintained. -/
theorem free_count_not_maintained :
    (construct 0 4 0 (bytes [])).map
        (fun p => (non_free_count p.bitmap p.nframes, p.nframes - p.nFreeFrames))
      = some (1, 0) ∧
    ((construct 0 4 0 (bytes [])).bind (fun p => get_frames p 2 4)).map
        (fun r => (r.1, non_free_count r.2.bitmap r.2.nframes, r.2.nframes - r.2.nFreeFrames,
          r.2.nFreeFrames))
      = some (1, 3, 0, 4) := by
  decide

/-- The extent of the defect behind C7, and what the bitmap keeps in spite of it: after
any sequence of `get_frames` and `release_frames_in_pool` calls on a freshly
constructed pool of `n` frames, the code has left `nFreeFrames` at `n` (no call
maintains the counter), while every frame of the pool that is not `Free` lies in
the run of exactly one `HoS` frame: the runs do not overlap and together hold
exactly the frames that are not `Free`. -/
theorem free_count_constant_runs_disjoint (base n info : Nat) (mem : Bitmap)
    (calls : List Call) (p0 p : ContFramePool)
    (h0 : construct base n info mem = some p0) (hrun : run_calls p0 calls = some p) :
    p.nframes = n ∧ p.nFreeFrames = n ∧
    (∀ k fuel r q, get_frames p k fuel = some (r, q) → q.nFreeFrames = p.nFreeFrames) ∧
    (∀ j, j < n → get_state p.bitmap j ≠ FrameState.Free →
      ∃! h, h ≤ j ∧ get_state p.bitmap h = FrameState.HoS ∧
        ∀ i, h < i → i ≤ j → get_state p.bitmap i = FrameState.Used) := by
  obtain ⟨hn, _, h2, h3, _, _⟩ := construct_spec base n info mem p0 h0
  have hN : n ≤ WORD := by
    have : (32768 : Nat) ≤ WORD := by norm_num [WORD]
    omega
  obtain ⟨k2, k3, k5⟩ := run_calls_runs n hN calls p0 p hrun
  refine ⟨k2.trans h2, k3.trans h3, ?_, ?_⟩
  · intro k fuel r q hg
    exact (get_frames_runs n p q k fuel r hg).2.2.1
  · exact runs_unique_head n p.bitmap (k5 (construct_runs base n info mem p0 h0))

/-- An instance of the preceding theorem: the self-hosted pool of 4 frames after an
allocation of two frames and the release of the frame returned. -/
theorem free_count_constant_runs_disjoint_witness :
    construct 0 4 0 (bytes []) = some fresh_pool4 ∧
    run_calls fresh_pool4 sample_calls = some pool4_after_calls ∧
    pool4_after_calls.nframes = 4 ∧ pool4_after_calls.nFreeFrames = 4 ∧
    (∀ k fuel r q, get_frames pool4_after_calls k fuel = some (r, q) →
      q.nFreeFrames = pool4_after_calls.nFreeFrames) ∧
    (∀ j, j < 4 → get_state pool4_after_calls.bitmap j ≠ FrameState.Free →
      ∃! h, h ≤ j ∧ get_state pool4_after_calls.bitmap h = FrameState.HoS ∧
        ∀ i, h < i → i ≤ j → get_state pool4_after_calls.bitmap i = FrameState.Used) :=
  ⟨rfl, (Option.some_get _).symm,
    free_count_constant_runs_disjoint 0 4 0 (bytes []) sample_calls fresh_pool4
      pool4_after_calls rfl (Option.some_get _).symm⟩

/-! ## C11: the scenario of frames 10..19 -/

/-- When `i0` starts the first run of `n ≥ 1` free frames of the bitmap, `get_frames n`
returns `base_frame_no + i0` and marks exactly that run. -/
theorem get_frames_run (p : ContFramePool) (n i0 fuel : Nat)
    (hn : 1 ≤ n) (hb : i0 + n < WORD)
    (hfree : FreeRun p.bitmap i0 n) (hleast : ∀ i, i < i0 → ¬ FreeRun p.bitmap i n)
    (hfuel : i0 + n ≤ fuel) :
    get_frames p n fuel = some ((i0 + p.base_frame_no) % WORD,
      { p with bitmap := mark_loop i0 (i0 + n) (i0 + n - i0) i0 p.bitmap }) ∧
    ∀ j, get_state (mark_loop i0 (i0 + n) (i0 + n - i0) i0 p.bitmap) j =
      if i0 ≤ j ∧ j < i0 + n then (if j = i0 then FrameState.HoS else FrameState.Used)
      else get_state p.bitmap j := by
  have hscan := scan_finds p.bitmap n i0 hn hb hfree hleast fuel 0 0 0 (le_refl _)
    (by omega) (by omega) (by intro k hk; omega) (by intro h; omega) (by omega)
  have hw : (i0 + n) % WORD = i0 + n := Nat.mod_eq_of_lt hb
  refine ⟨?_, mark_loop_spec i0 (i0 + n) hb (i0 + n - i0) i0 p.bitmap (by omega)⟩
  simp only [get_frames, hscan, lt_irrefl, if_false, hw]

/-- C11 (counterexample): on the self-hosted pool constructed with base 10 and 10
frames, the first `get_frames 3` returns 11, not 10, and the second `get_frames 5`
returns 14, not 13. -/
theorem scenario_first_frame_not_10 :
    ((construct 10 10 0 (bytes [])).bind (fun p => get_frames p 3 10)).map Prod.fst = some 11 ∧
    ((construct 10 10 0 (bytes [])).bind (fun p =>
      (get_frames p 3 10).bind (fun r => get_frames r.2 5 10))).map Prod.fst = some 14 := by
  decide

/-- C11 (amended): whatever the memory held before, the self-hosted pool constructed
with base 10 and 10 frames has frame 10 (local index 0) `HoS` and the others `Free`;
the first `get_frames 3` returns 11 and marks frame 11 `HoS` and frames 12, 13 `Used`;
the second `get_frames 5` returns 14 and marks frame 14 `HoS` and frames 15..18
`Used`, leaving frame 19 `Free`. -/
theorem scenario_frames_10_19 (mem : Bitmap) :
    ∃ p0 p1 p2, construct 10 10 0 mem = some p0 ∧
      (List.range 10).map (get_state p0.bitmap)
        = [FrameState.HoS, FrameState.Free, FrameState.Free, FrameState.Free, FrameState.Free,
            FrameState.Free, FrameState.Free, FrameState.Free, FrameState.Free, FrameState.Free] ∧
      get_frames p0 3 10 = some (11, p1) ∧
      (List.range 10).map (get_state p1.bitmap)
        = [FrameState.HoS, FrameState.HoS, FrameState.Used, FrameState.Used, FrameState.Free,
            FrameState.Free, FrameState.Free, FrameState.Free, FrameState.Free, FrameState.Free] ∧
      get_frames p1 5 10 = some (14, p2) ∧
      (List.range 10).map (get_state p2.bitmap)
        = [FrameState.HoS, FrameState.HoS, FrameState.Used, FrameState.Used, FrameState.HoS,
            FrameState.Used, FrameState.Used, FrameState.Used, FrameState.Used, FrameState.Free] := by
  obtain ⟨p0, h0⟩ : ∃ p0, construct 10 10 0 mem = some p0 := ⟨_, rfl⟩
  obtain ⟨_, hbase, _, _, _, st0⟩ := construct_spec 10 10 0 mem p0 h0
  have hW : WORD = 4294967296 := by norm_num [WORD]
  have hfree1 : FreeRun p0.bitmap 1 3 := by
    intro k hk
    rw [st0]
    have h1 : ¬ (1 + k = 0) := by omega
    have h2 : 1 + k < 10 := by omega
    simp [h1, h2]
  have hleast1 : ∀ i, i < 1 → ¬ FreeRun p0.bitmap i 3 := by
    intro i hi hrun
    have := hrun 0 (by omega)
    rw [st0] at this
    have h1 : i + 0 = 0 := by omega
    simp [h1] at this
  obtain ⟨hg1, st1⟩ := get_frames_run p0 3 1 10 (by omega) (by omega) hfree1 hleast1 (by omega)
  have hfree2 : FreeRun (mark_loop 1 (1 + 3) (1 + 3 - 1) 1 p0.bitmap) 4 5 := by
    intro k hk
    rw [st1, st0]
    have h0 : ¬ (1 ≤ 4 + k ∧ 4 + k < 1 + 3) := by omega
    have h1 : ¬ (4 + k = 0) := by omega
    have h2 : 4 + k < 10 := by omega
    simp [h0, h1, h2]
  have hleast2 : ∀ i, i < 4 → ¬ FreeRun (mark_loop 1 (1 + 3) (1 + 3 - 1) 1 p0.bitmap) i 5 := by
    intro i hi hrun
    have := hrun 0 (by omega)
    rw [st1, st0] at this
    interval_cases i <;> simp at this
  obtain ⟨hg2, st2⟩ := get_frames_run
    { p0 with bitmap := mark_loop 1 (1 + 3) (1 + 3 - 1) 1 p0.bitmap } 5 4 10
    (by omega) (by omega) hfree2 hleast2 (by omega)
  rw [hbase] at hg1
  simp only [hbase] at hg2
  refine ⟨p0, _, _, h0, ?_, hg1, ?_, hg2, ?_⟩
  · simp [List.range, List.range.loop, st0]
  · simp [List.range, List.range.loop, st1, st0]
  · simp [List.range, List.range.loop, st2, st1, st0]

/-! ## C12: `is_legitimate` -/

/-- Whenever `base_address + PAGE_SIZE` is at least 2 as a word, the chained comparison
of the first test holds and `is_legitimate` accepts every address. -/
theorem is_legitimate_always (p : VMPool) (a : Nat)
    (h : 2 ≤ (p.base_address + PAGE_SIZE) % WORD) : p.is_legitimate a = true := by
  unfold VMPool.is_legitimate chained_lt
  have : (if p.base_address < a then 1 else 0) < (p.base_address + PAGE_SIZE) % WORD := by
    split <;> omega
  simp [this]

/-- C12 (the code at failing inputs): the pool over 4 MB at 1 GB with no allocated
region reports the addresses 0 and 0xC0000000 legitimate, although neither lies in
the pool's first page or in an allocated region. -/
theorem is_legitimate_accepts_outside :
    (empty_vm_pool 1073741824 4194304).is_legitimate 0 = true ∧
    ¬ in_pool_ranges (empty_vm_pool 1073741824 4194304) 0 ∧
    (empty_vm_pool 1073741824 4194304).is_legitimate 3221225472 = true ∧
    ¬ in_pool_ranges (empty_vm_pool 1073741824 4194304) 3221225472 := by
  refine ⟨by decide, ?_, by decide, ?_⟩
  · simp [in_pool_ranges, empty_vm_pool]
  · simp [in_pool_ranges, empty_vm_pool]

/-! ## C13: a fault with no registered pool -/

/-- C13: when no VM pool is registered with the loaded page table, `handle_fault`
reports the address as illegitimate and returns the state as it was: the memory
(directory and page tables) and both frame pools are unchanged, whatever the fuel. -/
theorem handle_fault_no_pool (s : Paging) (a fuel : Nat)
    (h : s.current_page_table.head = []) : handle_fault s a fuel = some (false, s) := by
  simp [handle_fault, h]

/-- Witness for C13: a fault at 0x40001000 with no pool registered. -/
theorem handle_fault_no_pool_witness :
    sample_paging_no_pool.current_page_table.head = [] ∧
    handle_fault sample_paging_no_pool 1073745920 0 = some (false, sample_paging_no_pool) :=
  ⟨rfl, handle_fault_no_pool sample_paging_no_pool 1073745920 0 rfl⟩

/-! ## Bit operations on page-table words -/

theorem and_hi_mask (x : Nat) : x &&& 0xFFFFF000 = x % 2 ^ 32 / 4096 * 4096 := by
  apply Nat.eq_of_testBit_eq
  intro i
  have h1 : (0xFFFFF000 : Nat) = 2 ^ 12 * (2 ^ 20 - 1) := by norm_num
  have h2 : x % 2 ^ 32 / 4096 * 4096 = 2 ^ 12 * ((x % 2 ^ 32) >>> 12) := by
    rw [Nat.shiftRight_eq_div_pow, Nat.mul_comm]; norm_num
  rw [Nat.testBit_and, h1, h2, Nat.testBit_mul_pow_two, Nat.testBit_mul_pow_two,
    Nat.testBit_two_pow_sub_one, Nat.testBit_shiftRight, Nat.testBit_mod_two_pow]
  by_cases hi : 12 ≤ i
  · have e : 12 + (i - 12) = i := by omega
    rw [e]
    by_cases h32 : i < 32
    · have : i - 12 < 20 := by omega
      simp [hi, h32, this]
    · have : ¬ (i - 12 < 20) := by omega
      simp [hi, h32, this]
  · simp [hi]

theorem or_low (t o : Nat) (ht : t % 4096 = 0) (ho : o < 4096) : t ||| o = t + o := by
  have h : t = 2 ^ 12 * (t / 4096) := by
    have : (2 : Nat) ^ 12 = 4096 := by norm_num
    rw [this]; omega
  rw [h]
  exact (Nat.mul_add_lt_is_or (by simpa using ho) _).symm

theorem and_3ff (x : Nat) : x &&& 0x3FF = x % 1024 := by
  have := Nat.and_pow_two_sub_one_eq_mod x 10
  simpa using this

theorem and_fff (x : Nat) : x &&& 0xFFF = x % 4096 := by
  have := Nat.and_pow_two_sub_one_eq_mod x 12
  simpa using this

theorem shr12 (x : Nat) : x >>> 12 = x / 4096 := by
  rw [Nat.shiftRight_eq_div_pow]

theorem shr22 (x : Nat) : x >>> 22 = x / 4194304 := by
  rw [Nat.shiftRight_eq_div_pow]

theorem and_three (x : Nat) : x &&& 3 = x % 4 := by
  have := Nat.and_pow_two_sub_one_eq_mod x 2
  simpa using this

theorem write_eq (mem : Mem) (addr v x : Nat) :
    write mem addr v x = if x = addr then v else mem x := rfl

theorem store_loop_spec (table bound v : Nat) (hb : table + 4 * bound ≤ WORD) :
    ∀ (k i : Nat) (mem : Mem), i + k = bound → ∀ x,
      store_loop table bound v k i mem x =
        if table + 4 * i ≤ x ∧ x < table + 4 * bound ∧ (x - table) % 4 = 0 then v
        else mem x := by
  intro k
  induction k with
  | zero =>
    intro i mem hk x
    have : ¬ (table + 4 * i ≤ x ∧ x < table + 4 * bound ∧ (x - table) % 4 = 0) := by omega
    simp [store_loop, this]
  | succ k ih =>
    intro i mem hk x
    have hlt : i < bound := by omega
    have hw : (table + 4 * i) % WORD = table + 4 * i := Nat.mod_eq_of_lt (by omega)
    simp only [store_loop, hlt, if_true, hw]
    rw [ih (i + 1) _ (by omega) x, write_eq]
    by_cases hx : x = table + 4 * i
    · subst hx
      have h1 : ¬ (table + 4 * (i + 1) ≤ table + 4 * i ∧ table + 4 * i < table + 4 * bound ∧
          (table + 4 * i - table) % 4 = 0) := by omega
      have h2 : table + 4 * i ≤ table + 4 * i ∧ table + 4 * i < table + 4 * bound ∧
          (table + 4 * i - table) % 4 = 0 := by omega
      simp [h1, h2]
    · by_cases hr : table + 4 * i ≤ x ∧ x < table + 4 * bound ∧ (x - table) % 4 = 0
      · have h1 : table + 4 * (i + 1) ≤ x ∧ x < table + 4 * bound ∧ (x - table) % 4 = 0 := by
          omega
        simp [hr, h1]
      · have h1 : ¬ (table + 4 * (i + 1) ≤ x ∧ x < table + 4 * bound ∧ (x - table) % 4 = 0) := by
          omega
        simp [hr, h1, hx]

theorem fill_loop_spec (pt : Nat) (hb : pt + 4096 ≤ WORD) :
    ∀ (k i address : Nat) (mem : Mem), i + k = 1024 → address = i * 4096 → ∀ x,
      fill_loop pt k i address mem x =
        if pt + 4 * i ≤ x ∧ x < pt + 4096 ∧ (x - pt) % 4 = 0 then ((x - pt) / 4 * 4096) ||| 0x3
        else mem x := by
  have hW : WORD = 4294967296 := by norm_num [WORD]
  intro k
  induction k with
  | zero =>
    intro i address mem hk ha x
    have : ¬ (pt + 4 * i ≤ x ∧ x < pt + 4096 ∧ (x - pt) % 4 = 0) := by omega
    simp [fill_loop, this]
  | succ k ih =>
    intro i address mem hk ha x
    have hlt : i < 1024 := by omega
    have hw : (pt + 4 * i) % WORD = pt + 4 * i := Nat.mod_eq_of_lt (by omega)
    have hw2 : (address + 4096) % WORD = (i + 1) * 4096 := by
      rw [hW]; omega
    simp only [fill_loop, hlt, if_true, hw, hw2]
    rw [ih (i + 1) _ _ (by omega) rfl x, write_eq]
    by_cases hx : x = pt + 4 * i
    · subst hx
      have h1 : ¬ (pt + 4 * (i + 1) ≤ pt + 4 * i ∧ pt + 4 * i < pt + 4096 ∧
          (pt + 4 * i - pt) % 4 = 0) := by omega
      have h2 : pt + 4 * i ≤ pt + 4 * i ∧ pt + 4 * i < pt + 4096 ∧
          (pt + 4 * i - pt) % 4 = 0 := by omega
      have h3 : (pt + 4 * i - pt) / 4 * 4096 = address := by omega
      rw [if_neg h1, if_pos rfl, if_pos h2, h3]
    · by_cases hr : pt + 4 * i ≤ x ∧ x < pt + 4096 ∧ (x - pt) % 4 = 0
      · have h1 : pt + 4 * (i + 1) ≤ x ∧ x < pt + 4096 ∧ (x - pt) % 4 = 0 := by omega
        simp [hr, h1]
      · have h1 : ¬ (pt + 4 * (i + 1) ≤ x ∧ x < pt + 4096 ∧ (x - pt) % 4 = 0) := by omega
        simp [hr, h1, hx]

/-! ## C14: a legitimate fault in a mapped 4 MB slot -/

/-- C14 (counterexample): in the state `sample_paging` the pool reports 0xFFC05000
legitimate and directory entry 1023 is present; it references the directory
itself, so `handle_fault` writes the new mapping into directory entry 5. -/
theorem handle_fault_writes_directory :
    (sample_paging.current_page_table.head.any (fun p => p.is_legitimate 4290793472)) = true ∧
    sample_paging.mem (PDE_address 2097152 4290793472) &&& 0x1 ≠ 0 ∧
    sample_paging.mem (2097152 + 4 * 5) = 0 ∧
    (handle_fault sample_paging 4290793472 8).map (fun r => (r.1, r.2.mem (2097152 + 4 * 5)))
      = some (true, 4194307) := by
  decide

/-- C14 (amended): for a fault address that a registered VM pool reports legitimate and
whose directory entry is present, `handle_fault` (when the process pool's
`get_frames 1` returns frame `F`) writes one word: entry `(a >> 12) & 0x3FF` of the
table the directory entry references becomes `(F << 12) | 0x3`; every other word of
memory and the kernel pool are unchanged, and so is the whole directory when the
referenced table is not the directory frame itself. -/
theorem handle_fault_installs_one (s : Paging) (a fuel F : Nat) (pp2 : ContFramePool)
    (hlegit : ∃ p, p ∈ s.current_page_table.head ∧ p.is_legitimate a = true)
    (hpresent : s.mem (PDE_address s.current_page_table.page_directory a) &&& 0x1 ≠ 0)
    (hget : get_frames s.process_mem_pool 1 fuel = some (F, pp2)) :
    ∃ s2, handle_fault s a fuel = some (true, s2) ∧
      s2.mem (PTE_address s.mem s.current_page_table.page_directory a)
        = ((F <<< 12) % WORD) ||| 0x3 ∧
      (∀ x, x ≠ PTE_address s.mem s.current_page_table.page_directory a → s2.mem x = s.mem x) ∧
      s2.kernel_mem_pool = s.kernel_mem_pool ∧ s2.process_mem_pool = pp2 ∧
      s2.current_page_table = s.current_page_table ∧
      (s.current_page_table.page_directory % 4096 = 0 →
        s.mem (PDE_address s.current_page_table.page_directory a) &&& 0xFFFFF000
          ≠ s.current_page_table.page_directory →
        ∀ i, i < 1024 → s2.mem (s.current_page_table.page_directory + 4 * i)
          = s.mem (s.current_page_table.page_directory + 4 * i)) := by
  have hany : s.current_page_table.head.any (fun p => p.is_legitimate a) = true := by
    rw [List.any_eq_true]
    obtain ⟨p, hp1, hp2⟩ := hlegit
    exact ⟨p, hp1, hp2⟩
  unfold PDE_address at hpresent
  refine ⟨{ s with
      mem := write s.mem (PTE_address s.mem s.current_page_table.page_directory a)
        (((F <<< 12) % WORD) ||| 0x3)
      process_mem_pool := pp2 }, ?_, ?_, ?_, rfl, rfl, rfl, ?_⟩
  · simp only [handle_fault, hany, hpresent, hget, PTE_address, PDE_address]
    simp
  · simp [write_eq]
  · intro x hx
    simp [write_eq, hx]
  · intro hal hne i hi
    have hW : WORD = 4294967296 := by norm_num [WORD]
    have hx : s.current_page_table.page_directory + 4 * i
        ≠ PTE_address s.mem s.current_page_table.page_directory a := by
      unfold PTE_address
      rw [and_hi_mask] at hne ⊢
      rw [and_3ff, hW]
      omega
    simp [write_eq, hx]

/-- Witness for C14 (amended): a fault at 0x40001000, whose directory entry 256
references the table at 0x201000. -/
theorem handle_fault_installs_one_witness :
    ∃ s2, handle_fault sample_paging 1073745920 8 = some (true, s2) ∧
      s2.mem (PTE_address sample_paging.mem sample_paging.current_page_table.page_directory
          1073745920)
        = ((1024 <<< 12) % WORD) ||| 0x3 ∧
      (∀ x, x ≠ PTE_address sample_paging.mem sample_paging.current_page_table.page_directory
          1073745920 → s2.mem x = sample_paging.mem x) ∧
      s2.kernel_mem_pool = sample_paging.kernel_mem_pool ∧
      s2.process_mem_pool = sample_process_pool_after ∧
      s2.current_page_table = sample_paging.current_page_table ∧
      (sample_paging.current_page_table.page_directory % 4096 = 0 →
        sample_paging.mem (PDE_address sample_paging.current_page_table.page_directory
            1073745920) &&& 0xFFFFF000
          ≠ sample_paging.current_page_table.page_directory →
        ∀ i, i < 1024 → s2.mem (sample_paging.current_page_table.page_directory + 4 * i)
          = sample_paging.mem (sample_paging.current_page_table.page_directory + 4 * i)) :=
  handle_fault_installs_one sample_paging 1073745920 8 1024 sample_process_pool_after
    ⟨empty_vm_pool 1073741824 4194304, List.mem_cons_self _ _, by decide⟩ (by decide) rfl

/-! ## C15, C16: the `PageTable` constructor -/

/-- The memory the `PageTable` constructor leaves, word by word. -/
theorem page_table_construct_mem (mem : Mem) (kp pp kp2 pp2 : ContFramePool) (fuel f g : Nat)
    (hk : get_frames kp 1 fuel = some (f, kp2)) (hp : get_frames pp 1 fuel = some (g, pp2)) :
    ∃ mem2, PageTable.construct mem kp pp fuel
        = some ({ page_directory := (f * 4096) % WORD, head := [] }, mem2, kp2, pp2) ∧
      ∀ x, mem2 x =
        if x = (f * 4096) % WORD + 4 * 1023 then ((f * 4096) % WORD) ||| 0x3
        else if (f * 4096) % WORD + 4 ≤ x ∧ x < (f * 4096) % WORD + 4 * 1023 ∧
            (x - (f * 4096) % WORD) % 4 = 0 then 2
        else if x = (f * 4096) % WORD then ((g * 4096) % WORD) ||| 0x3
        else if (g * 4096) % WORD ≤ x ∧ x < (g * 4096) % WORD + 4096 ∧
            (x - (g * 4096) % WORD) % 4 = 0 then ((x - (g * 4096) % WORD) / 4 * 4096) ||| 0x3
        else mem x := by
  have hW : WORD = 4294967296 := by norm_num [WORD]
  have hpd : (f * 4096) % WORD + 4096 ≤ WORD := by rw [hW]; omega
  have hpt : (g * 4096) % WORD + 4096 ≤ WORD := by rw [hW]; omega
  have hw : ((f * 4096) % WORD + 4 * 1023) % WORD = (f * 4096) % WORD + 4 * 1023 :=
    Nat.mod_eq_of_lt (by omega)
  simp only [PageTable.construct, hk, hp, PAGE_SIZE]
  refine ⟨_, rfl, ?_⟩
  · intro x
    simp only [hw, write_eq]
    rw [store_loop_spec _ 1023 _ (by omega) 1022 1 _ (by omega) x]
    simp only [write_eq]
    rw [fill_loop_spec _ hpt 1024 0 0 mem (by omega) (by omega) x]
    by_cases h1 : x = (f * 4096) % WORD + 4 * 1023
    · simp [h1]
    · simp only [h1, if_false]
      by_cases h2 : (f * 4096) % WORD + 4 * 1 ≤ x ∧ x < (f * 4096) % WORD + 4 * 1023 ∧
          (x - (f * 4096) % WORD) % 4 = 0
      · have h2b : (f * 4096) % WORD + 4 ≤ x ∧ x < (f * 4096) % WORD + 4 * 1023 ∧
          (x - (f * 4096) % WORD) % 4 = 0 := by omega
        simp [h2, h2b]
      · have h2b : ¬ ((f * 4096) % WORD + 4 ≤ x ∧ x < (f * 4096) % WORD + 4 * 1023 ∧
          (x - (f * 4096) % WORD) % 4 = 0) := by omega
        simp only [h2, h2b, if_false]
        by_cases h3 : x = (f * 4096) % WORD
        · simp [h3]
        · simp [h3]

/-- C15: when the kernel pool's `get_frames 1` returns frame `f` and the process pool's
returns frame `g`, the constructor returns a table whose directory is at
`f * 4096`; directory entry 0 is `(g * 4096) | 0x3`, the address of the initial page
table with present and writable set; every entry 1..1022 is 2, its present bit
clear; entry 1023 is the directory's own address `| 0x3`. -/
theorem page_table_construct_directory (mem : Mem) (kp pp kp2 pp2 : ContFramePool)
    (fuel f g : Nat)
    (hk : get_frames kp 1 fuel = some (f, kp2)) (hp : get_frames pp 1 fuel = some (g, pp2)) :
    ∃ pt mem2, PageTable.construct mem kp pp fuel = some (pt, mem2, kp2, pp2) ∧
      pt.page_directory = (f * 4096) % WORD ∧ pt.head = [] ∧
      mem2 (pt.page_directory + 4 * 0) = ((g * 4096) % WORD) ||| 0x3 ∧
      (∀ i, 1 ≤ i → i ≤ 1022 →
        mem2 (pt.page_directory + 4 * i) = 2 ∧ mem2 (pt.page_directory + 4 * i) &&& 0x1 = 0) ∧
      mem2 (pt.page_directory + 4 * 1023) = pt.page_directory ||| 0x3 := by
  obtain ⟨mem2, hc, hm⟩ := page_table_construct_mem mem kp pp kp2 pp2 fuel f g hk hp
  refine ⟨_, mem2, hc, rfl, rfl, ?_, ?_, ?_⟩
  · show mem2 ((f * 4096) % WORD + 4 * 0) = _
    rw [hm]
    have h1 : ¬ ((f * 4096) % WORD + 4 * 0 = (f * 4096) % WORD + 4 * 1023) := by omega
    have h2 : ¬ ((f * 4096) % WORD + 4 ≤ (f * 4096) % WORD + 4 * 0 ∧
        (f * 4096) % WORD + 4 * 0 < (f * 4096) % WORD + 4 * 1023 ∧
        ((f * 4096) % WORD + 4 * 0 - (f * 4096) % WORD) % 4 = 0) := by omega
    rw [if_neg h1, if_neg h2, if_pos (by omega)]
  · intro i h1 h2
    have hv : mem2 ((f * 4096) % WORD + 4 * i) = 2 := by
      rw [hm]
      have h3 : ¬ ((f * 4096) % WORD + 4 * i = (f * 4096) % WORD + 4 * 1023) := by omega
      have h4 : (f * 4096) % WORD + 4 ≤ (f * 4096) % WORD + 4 * i ∧
        (f * 4096) % WORD + 4 * i < (f * 4096) % WORD + 4 * 1023 ∧
        ((f * 4096) % WORD + 4 * i - (f * 4096) % WORD) % 4 = 0 := by omega
      rw [if_neg h3, if_pos h4]
    show mem2 ((f * 4096) % WORD + 4 * i) = 2 ∧ mem2 ((f * 4096) % WORD + 4 * i) &&& 0x1 = 0
    rw [hv]
    exact ⟨rfl, by decide⟩
  · show mem2 ((f * 4096) % WORD + 4 * 1023) = _
    rw [hm, if_pos rfl]

/-- Witness for C15: the kernel pool hands out frame 513, the process pool frame 1024. -/
theorem page_table_construct_directory_witness :
    ∃ pt mem2, PageTable.construct (fun _ => 0) sample_kernel_pool sample_process_pool 8
        = some (pt, mem2, sample_kernel_pool_after, sample_process_pool_after) ∧
      pt.page_directory = (513 * 4096) % WORD ∧ pt.head = [] ∧
      mem2 (pt.page_directory + 4 * 0) = ((1024 * 4096) % WORD) ||| 0x3 ∧
      (∀ i, 1 ≤ i → i ≤ 1022 →
        mem2 (pt.page_directory + 4 * i) = 2 ∧ mem2 (pt.page_directory + 4 * i) &&& 0x1 = 0) ∧
      mem2 (pt.page_directory + 4 * 1023) = pt.page_directory ||| 0x3 :=
  page_table_construct_directory (fun _ => 0) sample_kernel_pool sample_process_pool
    sample_kernel_pool_after sample_process_pool_after 8 513 1024 rfl rfl

/-- C16: after the constructor, with the directory frame `f` and the table frame `g`
distinct, entry `i` of the initial page table is `(i * 4096) | 0x3` for every
`i < 1024`, and the two-level translation of every address `a < 4194304` is `a`,
through a directory entry and a table entry that both have present and writable
set. -/
theorem page_table_identity_map (mem : Mem) (kp pp kp2 pp2 : ContFramePool)
    (fuel f g : Nat)
    (hk : get_frames kp 1 fuel = some (f, kp2)) (hp : get_frames pp 1 fuel = some (g, pp2))
    (hne : (f * 4096) % WORD ≠ (g * 4096) % WORD) :
    ∃ pt mem2, PageTable.construct mem kp pp fuel = some (pt, mem2, kp2, pp2) ∧
      pt.page_directory = (f * 4096) % WORD ∧
      mem2 pt.page_directory = ((g * 4096) % WORD) ||| 0x3 ∧
      (∀ i, i < 1024 → mem2 ((g * 4096) % WORD + 4 * i) = (i * 4096) ||| 0x3) ∧
      (∀ a, a < 4194304 →
        translate mem2 pt.page_directory a = some a ∧
        mem2 (PDE_address pt.page_directory a) &&& 0x3 = 0x3 ∧
        mem2 (PTE_address mem2 pt.page_directory a) &&& 0x3 = 0x3) := by
  obtain ⟨mem2, hc, hm⟩ := page_table_construct_mem mem kp pp kp2 pp2 fuel f g hk hp
  have hW : WORD = 4294967296 := by norm_num [WORD]
  have hpd0 : ((f * 4096) % WORD) % 4096 = 0 := by rw [hW]; omega
  have hpt0 : ((g * 4096) % WORD) % 4096 = 0 := by rw [hW]; omega
  have hpdW : (f * 4096) % WORD < WORD := Nat.mod_lt _ (by rw [hW]; norm_num)
  have hptW : (g * 4096) % WORD < WORD := Nat.mod_lt _ (by rw [hW]; norm_num)
  generalize (f * 4096) % WORD = pd at hm hne hpd0 hpdW hc
  generalize (g * 4096) % WORD = T at hm hne hpt0 hptW
  have hdir : mem2 pd = T ||| 0x3 := by
    rw [hm]
    have h1 : ¬ (pd = pd + 4 * 1023) := by omega
    have h2 : ¬ (pd + 4 ≤ pd ∧ pd < pd + 4 * 1023 ∧ (pd - pd) % 4 = 0) := by omega
    rw [if_neg h1, if_neg h2, if_pos rfl]
  have htab : ∀ i, i < 1024 → mem2 (T + 4 * i) = (i * 4096) ||| 0x3 := by
    intro i hi
    rw [hm]
    have h1 : ¬ (T + 4 * i = pd + 4 * 1023) := by omega
    have h2 : ¬ (pd + 4 ≤ T + 4 * i ∧ T + 4 * i < pd + 4 * 1023 ∧ (T + 4 * i - pd) % 4 = 0) := by
      omega
    have h3 : ¬ (T + 4 * i = pd) := by omega
    have h4 : T ≤ T + 4 * i ∧ T + 4 * i < T + 4096 ∧ (T + 4 * i - T) % 4 = 0 := by omega
    have h5 : (T + 4 * i - T) / 4 * 4096 = i * 4096 := by omega
    rw [if_neg h1, if_neg h2, if_neg h3, if_pos h4, h5]
  refine ⟨_, mem2, hc, rfl, hdir, htab, ?_⟩
  intro a ha
  have e22 : a >>> 22 = 0 := by rw [shr22]; omega
  have eidx : (a >>> 12) &&& 0x3FF = a / 4096 := by rw [and_3ff, shr12]; omega
  have hpde : (pd + 4 * (a >>> 22)) % WORD = pd := by
    rw [e22]; exact Nat.mod_eq_of_lt (by omega)
  have hT3 : T ||| 0x3 = T + 3 := or_low T 3 hpt0 (by norm_num)
  have hmaskT : (T + 3) &&& 0xFFFFF000 = T := by
    rw [and_hi_mask]
    have : (2 : Nat) ^ 32 = WORD := by rw [hW]; norm_num
    rw [this, hW]; rw [hW] at hptW; omega
  have hpteaddr : (T + 4 * (a / 4096)) % WORD = T + 4 * (a / 4096) :=
    Nat.mod_eq_of_lt (by rw [hW] at hptW ⊢; omega)
  have hpte : mem2 (T + 4 * (a / 4096)) = a / 4096 * 4096 + 3 := by
    rw [htab _ (by omega)]
    exact or_low _ 3 (by omega) (by norm_num)
  have hmaskP : (a / 4096 * 4096 + 3) &&& 0xFFFFF000 = a / 4096 * 4096 := by
    rw [and_hi_mask]; omega
  refine ⟨?_, ?_, ?_⟩
  · simp only [translate, hpde, hdir, hT3, hmaskT, eidx, hpteaddr, hpte, hmaskP,
      Nat.and_one_is_mod, and_fff]
    have o1 : ¬ ((T + 3) % 2 = 0) := by omega
    have o2 : ¬ ((a / 4096 * 4096 + 3) % 2 = 0) := by omega
    rw [if_neg o1, if_neg o2, or_low _ _ (by omega) (Nat.mod_lt _ (by norm_num))]
    congr 1; omega
  · simp only [PDE_address, hpde, hdir, hT3, and_three]
    omega
  · simp only [PTE_address, PDE_address, hpde, hdir, hT3, hmaskT, eidx, hpteaddr, hpte,
      and_three]
    omega

/-- Witness for C16: the kernel pool hands out frame 513, the process pool frame 1024. -/
theorem page_table_identity_map_witness :
    ∃ pt mem2, PageTable.construct (fun _ => 0) sample_kernel_pool sample_process_pool 8
        = some (pt, mem2, sample_kernel_pool_after, sample_process_pool_after) ∧
      pt.page_directory = (513 * 4096) % WORD ∧
      mem2 pt.page_directory = ((1024 * 4096) % WORD) ||| 0x3 ∧
      (∀ i, i < 1024 → mem2 ((1024 * 4096) % WORD + 4 * i) = (i * 4096) ||| 0x3) ∧
      (∀ a, a < 4194304 →
        translate mem2 pt.page_directory a = some a ∧
        mem2 (PDE_address pt.page_directory a) &&& 0x3 = 0x3 ∧
        mem2 (PTE_address mem2 pt.page_directory a) &&& 0x3 = 0x3) :=
  page_table_identity_map (fun _ => 0) sample_kernel_pool sample_process_pool
    sample_kernel_pool_after sample_process_pool_after 8 513 1024 rfl rfl (by decide)

/-! ## C17: `free_page` -/

/-- C17: with `e` the word at `PTE_address (p * 4096)`: when its present bit is set,
`free_page p` passes `e >> 12` to `release_frames`, stores 0 in that entry and
leaves every other word of memory (directory and page tables) as it was; when
the bit is clear it changes neither memory nor any frame pool. -/
theorem free_page_releases_one (this current : PageTable) (mem : Mem)
    (pools : List ContFramePool) (cr3 p fuel : Nat) :
    (mem (PTE_address mem current.page_directory ((p * 4096) % WORD)) &&& 0x1 ≠ 0 →
      PageTable.free_page this current mem pools cr3 p fuel
        = (release_frames pools
            (mem (PTE_address mem current.page_directory ((p * 4096) % WORD)) >>> 12) fuel).map
          (fun pools2 =>
            (write mem (PTE_address mem current.page_directory ((p * 4096) % WORD)) 0, pools2,
              this.page_directory)) ∧
      write mem (PTE_address mem current.page_directory ((p * 4096) % WORD)) 0
        (PTE_address mem current.page_directory ((p * 4096) % WORD)) = 0 ∧
      ∀ x, x ≠ PTE_address mem current.page_directory ((p * 4096) % WORD) →
        write mem (PTE_address mem current.page_directory ((p * 4096) % WORD)) 0 x = mem x) ∧
    (mem (PTE_address mem current.page_directory ((p * 4096) % WORD)) &&& 0x1 = 0 →
      PageTable.free_page this current mem pools cr3 p fuel = some (mem, pools, cr3)) := by
  constructor
  · intro h
    refine ⟨?_, by simp [write_eq], fun x hx => by simp [write_eq, hx]⟩
    simp only [PageTable.free_page, PAGE_SIZE, if_true, h, ne_eq, not_false_eq_true]
    cases release_frames pools
      (mem (PTE_address mem current.page_directory ((p * 4096) % WORD)) >>> 12) fuel <;> rfl
  · intro h
    simp [PageTable.free_page, PAGE_SIZE, h]

/-- The two cases of `free_page` on `sample_mapped_mem`: page 5 is mapped to frame 1025,
which is released and the entry cleared; page 6 is not present and nothing changes. -/
theorem free_page_sample :
    sample_mapped_mem (PTE_address sample_mapped_mem 2097152 ((5 * 4096) % WORD)) = 4198403 ∧
    (PageTable.free_page { page_directory := 2097152, head := [] }
        { page_directory := 2097152, head := [] } sample_mapped_mem [sample_process_pool] 0 5 4).map
        (fun r => (r.1 (4194304 + 4 * 5), r.2.2)) = some (0, 2097152) ∧
    sample_mapped_mem (PTE_address sample_mapped_mem 2097152 ((6 * 4096) % WORD)) = 0 ∧
    (PageTable.free_page { page_directory := 2097152, head := [] }
        { page_directory := 2097152, head := [] } sample_mapped_mem [sample_process_pool] 7 6 4).map
        (fun r => (r.1 (4194304 + 4 * 5), r.2.2)) = some (4198403, 7) := by
  decide

/-! ## C18, C19, C20: the VM pool constructor and `allocate` -/

theorem clear_regions_spec (off bound : Nat) :
    ∀ (k i : Nat) (r : Regions), i + k = bound → ∀ j,
      clear_regions off bound k i r j =
        if off + i ≤ j ∧ j < off + bound then { start := 0, length := 0 } else r j := by
  intro k
  induction k with
  | zero =>
    intro i r hk j
    have : ¬ (off + i ≤ j ∧ j < off + bound) := by omega
    simp [clear_regions, this]
  | succ k ih =>
    intro i r hk j
    have hlt : i < bound := by omega
    simp only [clear_regions, hlt, if_true]
    rw [ih (i + 1) _ (by omega) j]
    by_cases hji : j = off + i
    · subst hji
      have h1 : ¬ (off + (i + 1) ≤ off + i ∧ off + i < off + bound) := by omega
      have h2 : off + i ≤ off + i ∧ off + i < off + bound := by omega
      simp [h1, h2, set_length, set_start]
    · by_cases hr : off + i ≤ j ∧ j < off + bound
      · have h1 : off + (i + 1) ≤ j ∧ j < off + bound := by omega
        simp [hr, h1]
      · have h1 : ¬ (off + (i + 1) ≤ j ∧ j < off + bound) := by omega
        simp [hr, h1, hji, set_length, set_start]

theorem vm_construct_regions (base size : Nat) (mem : Regions) (pt : PageTable) (j : Nat) :
    (VMPool.construct base size mem pt).1.regions j =
      if j = 256 then { start := 1, length := (size / PAGE_SIZE + WORD - 1) % WORD }
      else if j < 512 then { start := 0, length := 0 } else mem j := by
  simp only [VMPool.construct]
  rw [clear_regions_spec 256 256 255 1 _ (by omega) j,
    clear_regions_spec 0 256 256 0 _ (by omega) j]
  by_cases h1 : j = 256
  · subst h1
    simp [set_length, set_start]
  · by_cases h2 : j < 256
    · have a1 : ¬ (256 + 1 ≤ j ∧ j < 256 + 256) := by omega
      have a2 : 0 + 0 ≤ j ∧ j < 0 + 256 := by omega
      have a3 : j < 512 := by omega
      simp [a1, a2, a3, h1]
    · by_cases h3 : j < 512
      · have a1 : 256 + 1 ≤ j ∧ j < 256 + 256 := by omega
        simp [a1, h1, h3]
      · have a1 : ¬ (256 + 1 ≤ j ∧ j < 256 + 256) := by omega
        have a2 : ¬ (0 + 0 ≤ j ∧ j < 0 + 256) := by omega
        simp [a1, h2, h1, h3, set_length, set_start]

theorem allocate_find_spec (r : Regions) (i : Nat) (hi : i < 256) (hfree : (r i).start = 0) :
    ∀ (k i0 : Nat), i0 ≤ i → i - i0 < k → (∀ j, i0 ≤ j → j < i → (r j).start ≠ 0) →
      allocate_find r k i0 = some i := by
  intro k
  induction k with
  | zero => intro i0 h1 h2; omega
  | succ k ih =>
    intro i0 h1 h2 hused
    by_cases he : i0 = i
    · subst he
      simp [allocate_find, hfree]
    · have hne := hused i0 (le_refl _) (by omega)
      have h255 : ¬ (i0 + 1 > 255) := by omega
      simp only [allocate_find, hne, h255, ne_eq, not_false_eq_true, if_true, if_false]
      exact ih (i0 + 1) (by omega) (by omega) (fun j hj1 hj2 => hused j (by omega) hj2)

theorem allocate_spec (p : VMPool) (_size i : Nat) (hi : i < 256)
    (hfree : (p.regions i).start = 0) (hlow : ∀ j, j < i → (p.regions j).start ≠ 0) :
    (p.allocate _size).1 = (p.regions 256).start ∧
    (p.allocate _size).2.base_address = p.base_address ∧
    (p.allocate _size).2.size = p.size ∧
    ∀ j, (p.allocate _size).2.regions j =
      if j = i then { start := (p.regions 256).start, length := allocate_bytes _size }
      else if j = 256 then
        { start := ((p.regions 256).start + allocate_bytes _size) % WORD,
          length := ((p.regions 256).length + WORD - allocate_bytes _size) % WORD }
      else p.regions j := by
  have hfind := allocate_find_spec p.regions i hi hfree 256 0 (by omega) (by omega)
    (fun j _ hj => hlow j hj)
  have hne : (256 : Nat) ≠ i := by omega
  have hne2 : i ≠ 256 := by omega
  unfold VMPool.allocate
  rw [hfind]
  refine ⟨?_, rfl, rfl, ?_⟩
  · simp [set_length, set_start, hne, hne2]
  · intro j
    by_cases h1 : j = i
    · subst h1
      simp [set_length, set_start, hne, hne2]
    · by_cases h2 : j = 256
      · subst h2
        simp [set_length, set_start, hne, hne2]
      · simp [set_length, set_start, h1, h2]

theorem allocate_bytes_least (_size : Nat) (h : _size ≤ WORD - 4096) :
    4096 ∣ allocate_bytes _size ∧ _size ≤ allocate_bytes _size ∧
    ∀ m, 4096 ∣ m → _size ≤ m → allocate_bytes _size ≤ m := by
  have hW : WORD = 4294967296 := by norm_num [WORD]
  have hval : allocate_bytes _size = (_size + 4095) / 4096 * 4096 := by
    unfold allocate_bytes PAGE_SIZE
    rw [hW] at h ⊢
    split <;> omega
  rw [hval]
  refine ⟨Nat.dvd_mul_left _ _, by omega, ?_⟩
  intro m hm hle
  obtain ⟨c, rfl⟩ := hm
  omega

/-- C18 (the code at a failing input): the constructor clears all 256 allocated-region
slots and free-region slots 1..255, but sets `free_regions[0]` to start 1 and
length `size / 4096 - 1` (a page index and a page count): for the pool over 4 MB at
1 GB that is (1, 1023), not (base_address + 4096, size - 4096). -/
theorem vm_pool_initial_free_region (base size : Nat) (mem : Regions) (pt : PageTable) :
    (VMPool.construct base size mem pt).1.free_regions 0
      = { start := 1, length := (size / 4096 + WORD - 1) % WORD } ∧
    (∀ i, i < 256 →
      (VMPool.construct base size mem pt).1.allocated_regions i = { start := 0, length := 0 }) ∧
    (∀ j, 1 ≤ j → j < 256 →
      (VMPool.construct base size mem pt).1.free_regions j = { start := 0, length := 0 }) ∧
    (VMPool.construct 1073741824 4194304 mem pt).1.free_regions 0
      = { start := 1, length := 1023 } ∧
    ({ start := 1, length := 1023 } : MemRegion)
      ≠ { start := 1073741824 + 4096, length := 4194304 - 4096 } := by
  refine ⟨?_, ?_, ?_, ?_, by decide⟩
  · simp [VMPool.free_regions, vm_construct_regions, PAGE_SIZE]
  · intro i hi
    have h1 : i ≠ 256 := by omega
    have h2 : i < 512 := by omega
    simp [VMPool.allocated_regions, vm_construct_regions, h1, h2]
  · intro j h1 h2
    have h3 : 256 + j ≠ 256 := by omega
    have h4 : 256 + j < 512 := by omega
    simp [VMPool.free_regions, vm_construct_regions, h3, h4]
  · simp [VMPool.free_regions, vm_construct_regions, PAGE_SIZE, WORD]

/-- C19 (counterexample): for the size 0xFFFFFFFF the page-rounded length wraps to 0 in
32-bit arithmetic: the region recorded in slot 0 has length 0, which is not a
length of at least the size asked for. -/
theorem allocate_length_wraps :
    (sample_vm_pool.allocated_regions 0).start = 0 ∧
    (sample_vm_pool.allocate 4294967295).2.allocated_regions 0
      = { start := 1073745920, length := 0 } ∧
    ¬ (4294967295 ≤ ((sample_vm_pool.allocate 4294967295).2.allocated_regions 0).length) := by
  decide

/-- C19 (amended): for a size of at most `2^32 - 4096`, with `i` the lowest-index unused
allocated slot, `allocate` returns the previous `free_regions[0].start` `S`, records
`(S, L)` in slot `i` with `L` the least multiple of 4096 that is at least the size,
sets `free_regions[0]` to `(S + L, length - L)` in 32-bit arithmetic, and changes no
other slot of either table; it has no access to page-table memory. -/
theorem allocate_carves_front (p : VMPool) (_size i : Nat) (hi : i < 256)
    (hfree : (p.allocated_regions i).start = 0)
    (hlow : ∀ j, j < i → (p.allocated_regions j).start ≠ 0)
    (hsize : _size ≤ WORD - 4096) :
    ∃ L, (4096 ∣ L ∧ _size ≤ L ∧ ∀ m, 4096 ∣ m → _size ≤ m → L ≤ m) ∧
      (p.allocate _size).1 = (p.free_regions 0).start ∧
      (p.allocate _size).2.allocated_regions i
        = { start := (p.free_regions 0).start, length := L } ∧
      (p.allocate _size).2.free_regions 0
        = { start := ((p.free_regions 0).start + L) % WORD,
            length := ((p.free_regions 0).length + WORD - L) % WORD } ∧
      ((p.free_regions 0).start + L < WORD →
        ((p.free_regions 0).start + L) % WORD = (p.free_regions 0).start + L) ∧
      (L ≤ (p.free_regions 0).length → (p.free_regions 0).length < WORD →
        ((p.free_regions 0).length + WORD - L) % WORD = (p.free_regions 0).length - L) ∧
      (∀ j, j ≠ i → j ≠ 256 → (p.allocate _size).2.regions j = p.regions j) ∧
      (p.allocate _size).2.base_address = p.base_address ∧
      (p.allocate _size).2.size = p.size := by
  obtain ⟨a1, a2, a3, a4⟩ := allocate_spec p _size i hi hfree hlow
  have hne : (256 : Nat) ≠ i := by omega
  refine ⟨allocate_bytes _size, allocate_bytes_least _size hsize, a1, ?_, ?_, ?_, ?_, ?_, a2, a3⟩
  · simp only [VMPool.allocated_regions, VMPool.free_regions]
    rw [a4]; simp
  · simp only [VMPool.free_regions]
    rw [a4]; simp [hne]
  · intro h; exact Nat.mod_eq_of_lt h
  · intro h1 h2
    have hW : WORD = 4294967296 := by norm_num [WORD]
    rw [hW] at h2 ⊢
    omega
  · intro j h1 h2
    rw [a4]; simp [h1, h2]

/-- Witness for C19 (amended): `allocate 100` on `sample_vm_pool`. -/
theorem allocate_carves_front_witness :
    ∃ L, (4096 ∣ L ∧ 100 ≤ L ∧ ∀ m, 4096 ∣ m → 100 ≤ m → L ≤ m) ∧
      (sample_vm_pool.allocate 100).1 = (sample_vm_pool.free_regions 0).start ∧
      (sample_vm_pool.allocate 100).2.allocated_regions 0
        = { start := (sample_vm_pool.free_regions 0).start, length := L } ∧
      (sample_vm_pool.allocate 100).2.free_regions 0
        = { start := ((sample_vm_pool.free_regions 0).start + L) % WORD,
            length := ((sample_vm_pool.free_regions 0).length + WORD - L) % WORD } ∧
      ((sample_vm_pool.free_regions 0).start + L < WORD →
        ((sample_vm_pool.free_regions 0).start + L) % WORD
          = (sample_vm_pool.free_regions 0).start + L) ∧
      (L ≤ (sample_vm_pool.free_regions 0).length → (sample_vm_pool.free_regions 0).length < WORD →
        ((sample_vm_pool.free_regions 0).length + WORD - L) % WORD
          = (sample_vm_pool.free_regions 0).length - L) ∧
      (∀ j, j ≠ 0 → j ≠ 256 → (sample_vm_pool.allocate 100).2.regions j = sample_vm_pool.regions j) ∧
      (sample_vm_pool.allocate 100).2.base_address = sample_vm_pool.base_address ∧
      (sample_vm_pool.allocate 100).2.size = sample_vm_pool.size :=
  allocate_carves_front sample_vm_pool 100 0 (by decide) (by decide) (by decide) (by decide)

/-- C20 (the code at a failing input): on a freshly constructed pool over 4 MB at any
base address `B`, `allocate 100` records a length of 4096 bytes but returns 1, not
`B + 4096`; the second `allocate 4097` records 8192 bytes and returns 4097, the
address after the first region, not `B + 8192`. -/
theorem vm_scenario_addresses (B : Nat) (mem : Regions) (pt : PageTable) :
    ((VMPool.construct B 4194304 mem pt).1.allocate 100).1 = 1 ∧
    ((VMPool.construct B 4194304 mem pt).1.allocate 100).2.allocated_regions 0
      = { start := 1, length := 4096 } ∧
    (((VMPool.construct B 4194304 mem pt).1.allocate 100).2.allocate 4097).1 = 4097 ∧
    (((VMPool.construct B 4194304 mem pt).1.allocate 100).2.allocate 4097).2.allocated_regions 1
      = { start := 4097, length := 8192 } := by
  have r0 := vm_construct_regions B 4194304 mem pt
  obtain ⟨a1, _, _, a4⟩ := allocate_spec (VMPool.construct B 4194304 mem pt).1 100 0
    (by omega) (by rw [r0]; simp) (by intro j hj; omega)
  have hb1 : allocate_bytes 100 = 4096 := by decide
  have hb2 : allocate_bytes 4097 = 8192 := by decide
  have s0 : (((VMPool.construct B 4194304 mem pt).1.allocate 100).2.regions 0).start ≠ 0 := by
    simp [a4, r0]
  have s1 : (((VMPool.construct B 4194304 mem pt).1.allocate 100).2.regions 1).start = 0 := by
    simp [a4, r0]
  obtain ⟨b1, _, _, b4⟩ := allocate_spec ((VMPool.construct B 4194304 mem pt).1.allocate 100).2
    4097 1 (by omega) s1 (by intro j hj; have : j = 0 := by omega
                             subst this; exact s0)
  have hW : WORD = 4294967296 := by norm_num [WORD]
  refine ⟨?_, ?_, ?_, ?_⟩
  · simp [a1, r0]
  · simp [VMPool.allocated_regions, a4, r0, hb1]
  · simp [b1, a4, r0, hb1, hW]
  · simp [VMPool.allocated_regions, b4, a4, r0, hb1, hb2, hW]

/-! ## C21: `allocate` with a full region table -/

theorem allocate_find_full (r : Regions) (h : ∀ i, i < 256 → (r i).start ≠ 0) :
    ∀ k i, i < 256 → allocate_find r k i = none := by
  intro k
  induction k with
  | zero => intro i _; rfl
  | succ k ih =>
    intro i hi
    have := h i hi
    by_cases h255 : i + 1 > 255
    · simp [allocate_find, this, h255]
    · simp only [allocate_find, this, h255, ne_eq, not_false_eq_true, if_true, if_false]
      exact ih _ (by omega)

/-- C21: when all 256 allocated-region slots are in use, `allocate` returns 0 and leaves
the pool, hence both region tables, as it was; the hypothesis reads slots 0..255
only, and the same holds whatever the storage holds from index 256 on, which is
returned untouched. -/
theorem allocate_reports_exhaustion (p : VMPool) (_size : Nat)
    (h : ∀ i, i < 256 → (p.allocated_regions i).start ≠ 0) :
    p.allocate _size = (0, p) ∧
    ∀ r2 : Regions, (∀ i, i < 256 → r2 i = p.regions i) →
      ({ p with regions := r2 } : VMPool).allocate _size = (0, { p with regions := r2 }) := by
  constructor
  · simp only [VMPool.allocate, allocate_find_full p.regions h 256 0 (by omega)]
  · intro r2 h2
    have h3 : ∀ i, i < 256 → (r2 i).start ≠ 0 := by
      intro i hi
      rw [h2 i hi]
      exact h i hi
    simp only [VMPool.allocate, allocate_find_full r2 h3 256 0 (by omega)]

/-- Witness for C21: `allocate 100` on `full_vm_pool`. -/
theorem allocate_reports_exhaustion_witness :
    full_vm_pool.allocate 100 = (0, full_vm_pool) ∧
    ∀ r2 : Regions, (∀ i, i < 256 → r2 i = full_vm_pool.regions i) →
      ({ full_vm_pool with regions := r2 } : VMPool).allocate 100
        = (0, { full_vm_pool with regions := r2 }) :=
  allocate_reports_exhaustion full_vm_pool 100 (by
    intro i hi
    simp [VMPool.allocated_regions, full_vm_pool, hi])

/-! ## C22, C23: `release` -/

theorem release_find_missing (r : Regions) (off target : Nat)
    (hmiss : ∀ m, m < 256 → (r (off + m)).start ≠ target) :
    ∀ (k i0 : Nat), i0 ≤ 256 → 256 - i0 < k → release_find r off target k i0 = 256 := by
  intro k
  induction k with
  | zero => intro i0 h1 h2; omega
  | succ k ih =>
    intro i0 h1 h2
    by_cases he : i0 = 256
    · subst he
      simp [release_find]
    · have hlt : i0 < 256 := by omega
      have hne := hmiss i0 hlt
      simp only [release_find, hne, hlt, ne_eq, not_false_eq_true, and_self, if_true]
      exact ih (i0 + 1) (by omega) (by omega)

set_option maxRecDepth 100000 in
/-- C23 (the code at a failing input): in `busy_vm_pool` no allocated slot starts at
0x5000; `release 0x5000` runs past the table to `allocated_regions[256]`, which is
`free_regions[0]`: it copies that region into free-region slot 1, calls `free_page`
on pages 5 and 6 (the mapping of page 5 is removed) and clears `free_regions[0]`. -/
theorem release_unknown_clobbers_free_region :
    (∀ i, i < 256 → (busy_vm_pool.allocated_regions i).start ≠ 20480) ∧
    busy_vm_pool.free_regions 0 = { start := 1077927936, length := 8192 } ∧
    sample_mapped_mem (4194304 + 4 * 5) = 4198403 ∧
    (busy_vm_pool.release { page_directory := 2097152, head := [] }
        { page_directory := 2097152, head := [] } sample_mapped_mem [sample_process_pool] 0
        20480 4).map
        (fun r => (r.1.free_regions 0, r.1.free_regions 1, r.1.allocated_regions 0,
          r.2.1 (4194304 + 4 * 5)))
      = some ({ start := 0, length := 0 }, { start := 1077927936, length := 8192 },
          { start := 1073745920, length := 8192 }, 0) := by
  refine ⟨by decide, by decide, by decide, by decide⟩

/-! ## C24: the 2-bit encoding -/

set_option maxRecDepth 1000000 in
theorem byte_bits_fin : ∀ b : Fin 256, ∀ k : Fin 4,
    (set_state_byte b.val k.val FrameState.Free).testBit (2 * k.val) = false ∧
    (set_state_byte b.val k.val FrameState.Free).testBit (2 * k.val + 1) = false ∧
    (set_state_byte b.val k.val FrameState.Used).testBit (2 * k.val) = true ∧
    (set_state_byte b.val k.val FrameState.Used).testBit (2 * k.val + 1) = false ∧
    (set_state_byte b.val k.val FrameState.HoS).testBit (2 * k.val) = false ∧
    (set_state_byte b.val k.val FrameState.HoS).testBit (2 * k.val + 1) = true ∧
    set_state_byte b.val k.val FrameState.Free < 256 ∧
    set_state_byte b.val k.val FrameState.Used < 256 ∧
    set_state_byte b.val k.val FrameState.HoS < 256 := by
  decide

set_option maxRecDepth 1000000 in
theorem byte_other_bits_fin : ∀ b : Fin 256, ∀ k : Fin 4, ∀ t : Fin 8,
    t.val ≠ 2 * k.val → t.val ≠ 2 * k.val + 1 →
    (set_state_byte b.val k.val FrameState.Free).testBit t.val = b.val.testBit t.val ∧
    (set_state_byte b.val k.val FrameState.Used).testBit t.val = b.val.testBit t.val ∧
    (set_state_byte b.val k.val FrameState.HoS).testBit t.val = b.val.testBit t.val := by
  decide

/-- C24: after `set_state f s`, `get_state g` is `s` for `g = f` and its previous value
otherwise; every byte other than `f / 4` is unchanged; byte `f / 4` has bit
`2 * (f % 4)` and bit `2 * (f % 4) + 1` equal to 0,0 for `Free`, 1,0 for `Used` (01)
and 0,1 for `HoS` (10), and its other six bits unchanged. -/
theorem set_state_array_update (bm : Bitmap) (f g : Nat) (s : FrameState) :
    get_state (set_state bm f s) g = (if g = f then s else get_state bm g) ∧
    (∀ i, i ≠ f / 4 → set_state bm f s i = bm i) ∧
    set_state bm f s (f / 4) < 256 ∧
    (set_state bm f s (f / 4)).testBit (2 * (f % 4))
      = (match s with | FrameState.Free => false | FrameState.Used => true
                      | FrameState.HoS => false) ∧
    (set_state bm f s (f / 4)).testBit (2 * (f % 4) + 1)
      = (match s with | FrameState.Free => false | FrameState.Used => false
                      | FrameState.HoS => true) ∧
    (∀ t, t < 8 → t ≠ 2 * (f % 4) → t ≠ 2 * (f % 4) + 1 →
      (set_state bm f s (f / 4)).testBit t = (bm (f / 4)).testBit t) := by
  have hk : f % 4 < 4 := Nat.mod_lt _ (by norm_num)
  have hb : bm (f / 4) % 256 < 256 := Nat.mod_lt _ (by norm_num)
  have hbyte : set_state bm f s (f / 4) = set_state_byte (bm (f / 4) % 256) (f % 4) s := by
    simp only [set_state, if_true]
    exact set_state_byte_mod _ _ _
  have h1 := byte_bits_fin ⟨bm (f / 4) % 256, hb⟩ ⟨f % 4, hk⟩
  refine ⟨get_set bm f g s, ?_, ?_, ?_, ?_, ?_⟩
  · intro i hi
    simp [set_state, hi]
  · rw [hbyte]; cases s
    · exact h1.2.2.2.2.2.2.1
    · exact h1.2.2.2.2.2.2.2.1
    · exact h1.2.2.2.2.2.2.2.2
  · rw [hbyte]; cases s
    · exact h1.1
    · exact h1.2.2.1
    · exact h1.2.2.2.2.1
  · rw [hbyte]; cases s
    · exact h1.2.1
    · exact h1.2.2.2.1
    · exact h1.2.2.2.2.2.1
  · intro t ht h2 h3
    have h4 := byte_other_bits_fin ⟨bm (f / 4) % 256, hb⟩ ⟨f % 4, hk⟩ ⟨t, ht⟩ h2 h3
    have hmod : (bm (f / 4) % 256).testBit t = (bm (f / 4)).testBit t := by
      have := Nat.testBit_mod_two_pow (bm (f / 4)) 8 t
      simp only [show (2 : Nat) ^ 8 = 256 by norm_num] at this
      rw [this]; simp [ht]
    rw [hbyte, ← hmod]; cases s
    · exact h4.1
    · exact h4.2.1
    · exact h4.2.2

/-! ## C25: the list of frame pools -/

/-- C25 (the code at a failing input): after the construction of two pools the list
from `head` is 1, 2; after three pools `head` is pool 2 and the list is 2, 3; after
four it is 3, 4: the loop advances the static `head`, and the first pools are no
longer reachable. -/
theorem pool_list_loses_first_pool :
    (register_all empty_pool_list [1, 2] 4).map (fun l => (l.head, visited l.next 4 l.head))
      = some (some 1, [1, 2]) ∧
    (register_all empty_pool_list [1, 2, 3] 4).map (fun l => (l.head, visited l.next 4 l.head))
      = some (some 2, [2, 3]) ∧
    (register_all empty_pool_list [1, 2, 3, 4] 4).map (fun l => (l.head, visited l.next 4 l.head))
      = some (some 3, [3, 4]) := by
  decide

/-! ## C26: a fault in an unmapped 4 MB slot -/

theorem handle_fault_absent_mem (s : Paging) (a fuel K F : Nat) (kp2 pp2 : ContFramePool)
    (hany : s.current_page_table.head.any (fun p => p.is_legitimate a) = true)
    (habsent : s.mem ((s.current_page_table.page_directory + 4 * (a >>> 22)) % WORD) &&& 0x1 = 0)
    (hk : get_frames s.kernel_mem_pool 1 fuel = some (K, kp2))
    (hp : get_frames s.process_mem_pool 1 fuel = some (F, pp2)) :
    ∃ s2, handle_fault s a fuel = some (true, s2) ∧
      s2.kernel_mem_pool = kp2 ∧ s2.process_mem_pool = pp2 ∧
      s2.current_page_table = s.current_page_table ∧
      ∀ x, s2.mem x =
        if x = (((((K <<< 12) % WORD) ||| 0x3) &&& 0xFFFFF000) + 4 * ((a >>> 12) &&& 0x3FF)) % WORD
          then ((F <<< 12) % WORD) ||| 0x3
        else if x = (s.current_page_table.page_directory + 4 * (a >>> 22)) % WORD
          then ((K <<< 12) % WORD) ||| 0x3
        else store_loop ((K * 4096) % WORD) 1024 0 1024 0 s.mem x := by
  simp only [handle_fault, hany, habsent, hk, hp, PAGE_SIZE]
  refine ⟨_, rfl, rfl, rfl, rfl, ?_⟩
  intro x
  simp [write_eq]

/-- C26: for a legitimate fault address whose directory entry is not present, with `K`
and `F` the frames the kernel and the process pool hand out and the frame `K` not
the directory frame, `handle_fault` sets the directory entry to `(K << 12) | 0x3`,
leaves entry `(a >> 12) & 0x3FF` of the table in frame `K` equal to `(F << 12) | 0x3`
and its other 1023 entries 0, and leaves every other directory entry unchanged. -/
theorem handle_fault_creates_table (s : Paging) (a fuel K F : Nat) (kp2 pp2 : ContFramePool)
    (hlegit : ∃ p, p ∈ s.current_page_table.head ∧ p.is_legitimate a = true)
    (ha : a < WORD)
    (hpd : s.current_page_table.page_directory % 4096 = 0)
    (hpdW : s.current_page_table.page_directory < WORD)
    (habsent : s.mem (PDE_address s.current_page_table.page_directory a) &&& 0x1 = 0)
    (hk : get_frames s.kernel_mem_pool 1 fuel = some (K, kp2))
    (hp : get_frames s.process_mem_pool 1 fuel = some (F, pp2))
    (hne : (K * 4096) % WORD ≠ s.current_page_table.page_directory) :
    ∃ s2, handle_fault s a fuel = some (true, s2) ∧
      s2.mem (PDE_address s.current_page_table.page_directory a) = ((K <<< 12) % WORD) ||| 0x3 ∧
      (∀ j, j < 1024 → s2.mem ((K * 4096) % WORD + 4 * j)
        = if j = (a >>> 12) &&& 0x3FF then ((F <<< 12) % WORD) ||| 0x3 else 0) ∧
      (∀ j, j < 1024 → j ≠ a >>> 22 →
        s2.mem (s.current_page_table.page_directory + 4 * j)
          = s.mem (s.current_page_table.page_directory + 4 * j)) ∧
      s2.kernel_mem_pool = kp2 ∧ s2.process_mem_pool = pp2 ∧
      s2.current_page_table = s.current_page_table := by
  have hW : WORD = 4294967296 := by norm_num [WORD]
  have hany : s.current_page_table.head.any (fun p => p.is_legitimate a) = true := by
    rw [List.any_eq_true]
    obtain ⟨p, hp1, hp2⟩ := hlegit
    exact ⟨p, hp1, hp2⟩
  have hT0 : ((K * 4096) % WORD) % 4096 = 0 := by rw [hW]; omega
  have hTW : (K * 4096) % WORD < WORD := Nat.mod_lt _ (by rw [hW]; norm_num)
  have hshl : (K <<< 12) % WORD = (K * 4096) % WORD := by
    rw [Nat.shiftLeft_eq]
  have hd : a >>> 22 < 1024 := by rw [shr22]; rw [hW] at ha; omega
  have hidx : (a >>> 12) &&& 0x3FF < 1024 := by rw [and_3ff]; omega
  unfold PDE_address at habsent ⊢
  obtain ⟨s2, h1, h2, h3, h4, hm⟩ :=
    handle_fault_absent_mem s a fuel K F kp2 pp2 hany habsent hk hp
  have hpde : (s.current_page_table.page_directory + 4 * (a >>> 22)) % WORD
      = s.current_page_table.page_directory + 4 * (a >>> 22) :=
    Nat.mod_eq_of_lt (by rw [hW] at hpdW ⊢; omega)
  rw [hshl, hpde] at hm
  rw [hshl, hpde]
  suffices hgoal :
      s2.mem (s.current_page_table.page_directory + 4 * (a >>> 22)) = (K * 4096) % WORD ||| 0x3 ∧
      (∀ j, j < 1024 → s2.mem ((K * 4096) % WORD + 4 * j)
        = if j = (a >>> 12) &&& 0x3FF then ((F <<< 12) % WORD) ||| 0x3 else 0) ∧
      (∀ j, j < 1024 → j ≠ a >>> 22 →
        s2.mem (s.current_page_table.page_directory + 4 * j)
          = s.mem (s.current_page_table.page_directory + 4 * j)) from
    ⟨s2, h1, hgoal.1, hgoal.2.1, hgoal.2.2, h2, h3, h4⟩
  clear h1 h2 h3 h4 hk hp hany hlegit habsent hpde hshl
  generalize a >>> 22 = d at hd hm ⊢
  generalize (a >>> 12) &&& 0x3FF = idx at hidx hm ⊢
  generalize (K * 4096) % WORD = T at hne hT0 hTW hm ⊢
  generalize s.current_page_table.page_directory = pd at hpd hpdW hne hm ⊢
  generalize ((F <<< 12) % WORD) ||| 0x3 = v at hm ⊢
  have hT3 : T ||| 0x3 = T + 3 := or_low T 3 hT0 (by norm_num)
  have hmask : (T + 3) &&& 0xFFFFF000 = T := by
    rw [and_hi_mask]
    rw [hW] at hTW; omega
  have hpte : (T + 4 * idx) % WORD = T + 4 * idx :=
    Nat.mod_eq_of_lt (by rw [hW] at hTW ⊢; omega)
  rw [hT3, hmask, hpte] at hm
  have hloop : ∀ x, store_loop T 1024 0 1024 0 s.mem x =
      if T + 4 * 0 ≤ x ∧ x < T + 4 * 1024 ∧ (x - T) % 4 = 0 then 0 else s.mem x :=
    store_loop_spec T 1024 0 (by rw [hW] at hTW ⊢; omega) 1024 0 s.mem (by omega)
  refine ⟨?_, ?_, ?_⟩
  · rw [hm, hT3]
    have n1 : ¬ (pd + 4 * d = T + 4 * idx) := by omega
    rw [if_neg n1, if_pos rfl]
  · intro j hj
    rw [hm]
    by_cases hji : j = idx
    · subst hji
      simp
    · have n1 : ¬ (T + 4 * j = T + 4 * idx) := by omega
      have n2 : ¬ (T + 4 * j = pd + 4 * d) := by omega
      have n3 : T + 4 * 0 ≤ T + 4 * j ∧ T + 4 * j < T + 4 * 1024 ∧ (T + 4 * j - T) % 4 = 0 := by
        omega
      rw [if_neg n1, if_neg n2, hloop, if_pos n3, if_neg hji]
  · intro j hj hjd
    rw [hm]
    have n1 : ¬ (pd + 4 * j = T + 4 * idx) := by omega
    have n2 : ¬ (pd + 4 * j = pd + 4 * d) := by omega
    have n3 : ¬ (T + 4 * 0 ≤ pd + 4 * j ∧ pd + 4 * j < T + 4 * 1024 ∧
        (pd + 4 * j - T) % 4 = 0) := by omega
    rw [if_neg n1, if_neg n2, hloop, if_neg n3]

/-- Witness for C26: a fault at 0x80000000, whose directory entry 512 is not present;
the kernel pool hands out frame 514 and the process pool frame 1024. -/
theorem handle_fault_creates_table_witness :
    ∃ s2, handle_fault sample_paging_two 2147483648 8 = some (true, s2) ∧
      s2.mem (PDE_address sample_paging_two.current_page_table.page_directory 2147483648)
        = ((514 <<< 12) % WORD) ||| 0x3 ∧
      (∀ j, j < 1024 → s2.mem ((514 * 4096) % WORD + 4 * j)
        = if j = (2147483648 >>> 12) &&& 0x3FF then ((1024 <<< 12) % WORD) ||| 0x3 else 0) ∧
      (∀ j, j < 1024 → j ≠ 2147483648 >>> 22 →
        s2.mem (sample_paging_two.current_page_table.page_directory + 4 * j)
          = sample_paging_two.mem (sample_paging_two.current_page_table.page_directory + 4 * j)) ∧
      s2.kernel_mem_pool = sample_kernel_pool_two_after ∧
      s2.process_mem_pool = sample_process_pool_after ∧
      s2.current_page_table = sample_paging_two.current_page_table :=
  handle_fault_creates_table sample_paging_two 2147483648 8 514 1024
    sample_kernel_pool_two_after sample_process_pool_after
    ⟨empty_vm_pool 1073741824 4194304, List.mem_cons_self _ _, by decide⟩
    (by decide) (by decide) (by decide) (by decide) rfl rfl (by decide)

/-! ## C27: sequences of `allocate` -/

theorem layout_bounds (sizes : List Nat) :
    ∀ S, S + (sizes.map allocate_bytes).sum < WORD →
      ∀ b, b ∈ layout S sizes → S ≤ b.start := by
  induction sizes with
  | nil => intro S _ b hb; simp [layout] at hb
  | cons s ss ih =>
    intro S hsum b hb
    simp only [List.map_cons, List.sum_cons] at hsum
    have hw : (S + allocate_bytes s) % WORD = S + allocate_bytes s := Nat.mod_eq_of_lt (by omega)
    simp only [layout, List.mem_cons, hw] at hb
    rcases hb with rfl | hb
    · exact le_refl _
    · have := ih (S + allocate_bytes s) (by omega) b hb
      omega

theorem layout_pairwise (sizes : List Nat) :
    ∀ S, S + (sizes.map allocate_bytes).sum < WORD →
      List.Pairwise (fun a b => a.start + a.length ≤ b.start) (layout S sizes) := by
  induction sizes with
  | nil => intro S _; simp [layout]
  | cons s ss ih =>
    intro S hsum
    simp only [List.map_cons, List.sum_cons] at hsum
    have hw : (S + allocate_bytes s) % WORD = S + allocate_bytes s := Nat.mod_eq_of_lt (by omega)
    simp only [layout, hw, List.pairwise_cons]
    exact ⟨fun b hb => layout_bounds ss _ (by omega) b hb, ih _ (by omega)⟩

theorem allocate_all_layout (sizes : List Nat) :
    ∀ (p : VMPool) (k S : Nat), k + sizes.length ≤ 256 →
      (∀ m, m < k → (p.regions m).start ≠ 0) →
      (∀ m, k ≤ m → m < 256 → (p.regions m).start = 0) →
      (p.regions 256).start = S → S ≠ 0 →
      S + (sizes.map allocate_bytes).sum < WORD →
      (allocate_all p sizes).2 = (layout S sizes).map (fun r => r.start) ∧
      (∀ m, m < sizes.length →
        (allocate_all p sizes).1.regions (k + m) = (layout S sizes).getD m { start := 0, length := 0 }) ∧
      (∀ m, m < k → (allocate_all p sizes).1.regions m = p.regions m) := by
  induction sizes with
  | nil =>
    intro p k S _ _ _ _ _ _
    refine ⟨rfl, ?_, fun m _ => rfl⟩
    intro m hm; simp at hm
  | cons s ss ih =>
    intro p k S hk hused hfree hS hS0 hsum
    simp only [List.map_cons, List.sum_cons] at hsum
    simp only [List.length_cons] at hk
    have hw : (S + allocate_bytes s) % WORD = S + allocate_bytes s := Nat.mod_eq_of_lt (by omega)
    obtain ⟨a1, _, _, a4⟩ := allocate_spec p s k (by omega) (hfree k (le_refl _) (by omega))
      (fun j hj => hused j hj)
    rw [hS] at a1 a4
    have hk256 : k ≠ 256 := by omega
    obtain ⟨b1, b2, b3⟩ := ih (p.allocate s).2 (k + 1) (S + allocate_bytes s) (by omega)
      (by
        intro m hm
        rw [a4]
        by_cases hmk : m = k
        · simp [hmk, hS0]
        · have h256 : m ≠ 256 := by omega
          simp only [hmk, h256, if_false]
          exact hused m (by omega))
      (by
        intro m hm1 hm2
        rw [a4]
        have hmk : m ≠ k := by omega
        have h256 : m ≠ 256 := by omega
        simp only [hmk, h256, if_false]
        exact hfree m (by omega) hm2)
      (by rw [a4]; simp [hk256.symm, hw])
      (by omega) (by omega)
    refine ⟨?_, ?_, ?_⟩
    · simp only [allocate_all, layout, List.map_cons, hw, a1, b1]
    · intro m hm
      cases m with
      | zero =>
        simp only [allocate_all, layout, List.getD_cons_zero, Nat.add_zero]
        rw [b3 k (by omega), a4]
        simp
      | succ m =>
        simp only [allocate_all, layout, List.getD_cons_succ, hw]
        have := b2 m (by simpa using hm)
        rw [show k + (m + 1) = k + 1 + m by omega]
        exact this
    · intro m hm
      simp only [allocate_all]
      rw [b3 m (by omega), a4]
      have hmk : m ≠ k := by omega
      have h256 : m ≠ 256 := by omega
      simp [hmk, h256]

/-- C27 (counterexample): on the pool constructed over 4 MB at 1 GB, `allocate 100`
records the region (1, 4096), which starts below `base_address + 4096`; and
`allocate` of 8 MB, more than the whole pool and than `free_regions[0].length`, is
granted all the same. -/
theorem allocate_grants_oversize :
    ((VMPool.construct 1073741824 4194304 (fun _ => { start := 0, length := 0 })
        { page_directory := 0, head := [] }).1.allocate 100).2.allocated_regions 0
      = { start := 1, length := 4096 } ∧
    ¬ (1073741824 + 4096 ≤ 1) ∧
    ((VMPool.construct 1073741824 4194304 (fun _ => { start := 0, length := 0 })
        { page_directory := 0, head := [] }).1.free_regions 0).length = 1023 ∧
    ((VMPool.construct 1073741824 4194304 (fun _ => { start := 0, length := 0 })
        { page_directory := 0, head := [] }).1.allocate 8388608).1 = 1 ∧
    ((VMPool.construct 1073741824 4194304 (fun _ => { start := 0, length := 0 })
        { page_directory := 0, head := [] }).1.allocate 8388608).2.allocated_regions 0
      = { start := 1, length := 8388608 } ∧
    ¬ (8388608 ≤ 4194304) := by
  have r0 := vm_construct_regions 1073741824 4194304 (fun _ => { start := 0, length := 0 })
    { page_directory := 0, head := [] }
  have hW : WORD = 4294967296 := by norm_num [WORD]
  obtain ⟨_, _, _, a4⟩ := allocate_spec (VMPool.construct 1073741824 4194304
    (fun _ => { start := 0, length := 0 }) { page_directory := 0, head := [] }).1 100 0
    (by omega) (by rw [r0]; simp) (by intro j hj; omega)
  obtain ⟨b1, _, _, b4⟩ := allocate_spec (VMPool.construct 1073741824 4194304
    (fun _ => { start := 0, length := 0 }) { page_directory := 0, head := [] }).1 8388608 0
    (by omega) (by rw [r0]; simp) (by intro j hj; omega)
  have hb1 : allocate_bytes 100 = 4096 := by decide
  have hb2 : allocate_bytes 8388608 = 8388608 := by decide
  refine ⟨?_, by decide, ?_, ?_, ?_, by decide⟩
  · simp [VMPool.allocated_regions, a4, r0, hb1]
  · simp [VMPool.free_regions, r0, PAGE_SIZE, hW]
  · simp [b1, r0]
  · simp [VMPool.allocated_regions, b4, r0, hb2]

/-- C27 (amended): from a pool state with all 256 allocated-region slots unused and
`free_regions[0].start = S ≠ 0`, a sequence of at most 256 `allocate` calls whose
page-rounded lengths keep `S + L1 + ... + Ln` below `2^32` returns the addresses
`S`, `S + L1`, ... and records the regions `(S, L1)`, `(S + L1, L2)`, ... in slots
0, 1, ...: every call is granted with a non-zero address, whatever
`free_regions[0].length` is, and each region ends where the next one starts, so the
regions are pairwise disjoint. -/
theorem allocate_sequence_layout (p : VMPool) (sizes : List Nat)
    (hlen : sizes.length ≤ 256)
    (hunused : ∀ i, i < 256 → (p.allocated_regions i).start = 0)
    (hS : (p.free_regions 0).start ≠ 0)
    (hsum : (p.free_regions 0).start + (sizes.map allocate_bytes).sum < WORD) :
    (allocate_all p sizes).2
      = (layout (p.free_regions 0).start sizes).map (fun r => r.start) ∧
    (∀ m, m < sizes.length →
      (allocate_all p sizes).1.allocated_regions m
        = (layout (p.free_regions 0).start sizes).getD m { start := 0, length := 0 }) ∧
    (∀ v, v ∈ (allocate_all p sizes).2 → v ≠ 0) ∧
    List.Pairwise (fun a b => a.start + a.length ≤ b.start)
      (layout (p.free_regions 0).start sizes) := by
  obtain ⟨h1, h2, _⟩ := allocate_all_layout sizes p 0 (p.free_regions 0).start
    (by omega) (by intro m hm; omega) (fun m _ hm => hunused m hm) rfl hS hsum
  refine ⟨h1, ?_, ?_, layout_pairwise sizes _ hsum⟩
  · intro m hm
    have := h2 m hm
    rw [Nat.zero_add] at this
    exact this
  · intro v hv
    rw [h1, List.mem_map] at hv
    obtain ⟨b, hb, rfl⟩ := hv
    have := layout_bounds sizes _ hsum b hb
    omega

/-- Witness for C27 (amended): `allocate 100` then `allocate 4097` on `sample_vm_pool`. -/
theorem allocate_sequence_layout_witness :
    (allocate_all sample_vm_pool [100, 4097]).2
      = (layout (sample_vm_pool.free_regions 0).start [100, 4097]).map (fun r => r.start) ∧
    (∀ m, m < [100, 4097].length →
      (allocate_all sample_vm_pool [100, 4097]).1.allocated_regions m
        = (layout (sample_vm_pool.free_regions 0).start [100, 4097]).getD m
            { start := 0, length := 0 }) ∧
    (∀ v, v ∈ (allocate_all sample_vm_pool [100, 4097]).2 → v ≠ 0) ∧
    List.Pairwise (fun a b => a.start + a.length ≤ b.start)
      (layout (sample_vm_pool.free_regions 0).start [100, 4097]) :=
  allocate_sequence_layout sample_vm_pool [100, 4097] (by decide)
    (by intro i hi
        have h : i ≠ 256 := by omega
        simp [VMPool.allocated_regions, sample_vm_pool, h])
    (by decide) (by decide)

end MP4
